import Mathlib

/-!
Verification development for the `uefi-toys` loopback block-device driver
(`loopdrv`) and its ISO9660 live-patching companion (`lopatch`).

The Rust sources are shallowly embedded: machine integers (`u32`, `u64`,
`usize`) become `Nat` with explicit `% 2 ^ w` at the points where the source
performs wrapping arithmetic; fallible operations return `Except`; paths that
can hit a Rust `assert!`/`unwrap` panic return `Option` (with `none` for the
panic).  Firmware collaborators (boot services) are modelled by their
documented contracts and made explicit parameters of the embedded functions.
-/

namespace UefiToys

/-- EFI status codes used by the driver (`uefi::Status`). -/
inductive Status where
  | SUCCESS
  | INVALID_PARAMETER
  | BAD_BUFFER_SIZE
  | NO_MEDIA
  | MEDIA_CHANGED
  | WRITE_PROTECTED
  | DEVICE_ERROR
  | NOT_FOUND
  | ABORTED
  | BUFFER_TOO_SMALL
  deriving DecidableEq, Repr

namespace BlockIo

/-- `SECTOR_SIZE` from `loop_pt.rs`. -/
def SECTOR_SIZE : Nat := 512

/-- Internal mapping-table target (`PrivTarget` in `loopback/mod.rs`).
`pool` carries the pool's byte contents and byte size; `file` carries the
backing file's byte contents as a function from byte offset.  (Handle /
interface-pointer fields, used only for the tamper re-verification against
the firmware, are not needed by the dispatch arithmetic modelled here; the
re-verification is modelled as passing, i.e. the firmware did not swap the
filesystem interface.) -/
inductive PrivTarget where
  | zero
  | pool (data : Nat → Nat) (sizeBytes : Nat)
  | file (bytes : Nat → Nat)

/-- Internal mapping-table item (`PrivMappingItem` in `loopback/mod.rs`).
`tsi` is `target_start_sector`. -/
structure PrivItem where
  start : Nat
  num : Nat
  tsi : Nat
  target : PrivTarget

/-- `LoopMappingItem::end_sector`. -/
def PrivItem.endSector (i : PrivItem) : Nat := i.start + i.num

/-- One invocation of the per-target callback performed by `access_blocks`:
the item it came from, the cursor (`curr_sector`), the `advance`, the
`target_sector` passed to the callback, and the buffer offset in sectors
(`total_advance` at dispatch time). -/
structure Op where
  item : PrivItem
  cursor : Nat
  advance : Nat
  targetSector : Nat
  bufOfs : Nat

/-- Sum of the `advance` arguments of a list of dispatched operations. -/
def sumAdvances (ops : List Op) : Nat := (ops.map Op.advance).sum

/-- The `for item in &mut table[upper_bound - 1..]` loop of `access_blocks`
(`block_io.rs` lines 54-70), collecting the per-target operations it
dispatches.  Returns the operations together with the final
`total_advance`.  All subtractions are `u64` subtractions that the source
only reaches with ordered operands (the claims' hypotheses make `Nat`
truncated subtraction agree with them). -/
def walk : List PrivItem → Nat → Nat → Nat → List Op × Nat
  | [], _, _, ta => ([], ta)
  | item :: rest, start, total, ta =>
    if total - ta = 0 then ([], ta)
    else
      let curr := start + ta
      let itemEnd := item.start + item.num
      let advance := Nat.min (total - ta) (itemEnd - curr)
      let op : Op := ⟨item, curr, advance, item.tsi + (curr - item.start), ta⟩
      let res := walk rest start total (ta + advance)
      (op :: res.1, res.2)

/-- `end_sector` computed from the last table item (`block_io.rs` lines
30-34). -/
def tableEnd (table : List PrivItem) : Nat :=
  match table.getLast? with
  | none => 0
  | some last => last.start + last.num

/-- Rust `slice::partition_point` under the partitioned-input contract: the
length of the initial run satisfying the predicate. -/
def partitionPoint (p : PrivItem → Bool) (l : List PrivItem) : Nat :=
  (l.takeWhile p).length

/-- `access_blocks` (`block_io.rs` lines 20-75), with the per-target callback
replaced by collection of the operations it would be invoked with (the
claims quantify over runs where every callback invocation succeeds).
`none` models a Rust assertion failure (`assert_ne!`/`assert_eq!`);
`some (.error e)` an early `Err` return; `some (.ok ops)` a successful run
dispatching `ops`.  `start_sector` is computed exactly as in the source:
`lba * block_size` is a wrapping `u64` multiply. -/
def accessBlocks (table : List PrivItem) (blockSize lba bufLen : Nat) :
    Option (Except Status (List Op)) :=
  let endSector := tableEnd table
  let startSector := lba * blockSize % 2 ^ 64 / SECTOR_SIZE
  let totalSectors := bufLen / SECTOR_SIZE
  if startSector + totalSectors > endSector then
    some (.error .INVALID_PARAMETER)
  else
    let upperBound := partitionPoint (fun x => x.start ≤ startSector) table
    if upperBound = 0 then none
    else
      let res := walk (table.drop (upperBound - 1)) startSector totalSectors 0
      if res.2 = totalSectors then some (.ok res.1) else none

/-- The mapping-table well-formedness the driver maintains (spec §3): items
sorted by `start_sector`, contiguous, starting from sector 0.
`contiguousFrom n t` says `t`'s items tile `[n, n + Σ num)` in order. -/
def contiguousFrom : Nat → List PrivItem → Bool
  | _, [] => true
  | n, i :: r => i.start = n && contiguousFrom (i.start + i.num) r

/-- Total sector count of a table. -/
def sumNums (t : List PrivItem) : Nat := (t.map PrivItem.num).sum

theorem tableEnd_eq_sumNums (t : List PrivItem) (n : Nat)
    (h : contiguousFrom n t = true) (hne : t ≠ []) :
    tableEnd t = n + sumNums t := by
  induction t generalizing n with
  | nil => exact absurd rfl hne
  | cons i r ih =>
    simp only [contiguousFrom, Bool.and_eq_true, decide_eq_true_eq] at h
    obtain ⟨hst, hr⟩ := h
    cases r with
    | nil => simp [tableEnd, sumNums, hst]
    | cons j s =>
      have hrec := ih _ hr (by simp)
      simp only [tableEnd, List.getLast?_cons_cons] at hrec ⊢
      rw [hrec]
      simp only [sumNums, List.map_cons, List.sum_cons]
      omega

/-- If the remaining request is already satisfied, the walk dispatches
nothing. -/
theorem walk_done (items : List PrivItem) (start total : Nat) :
    walk items start total total = ([], total) := by
  cases items with
  | nil => rfl
  | cons i r => simp [walk]

/-- The per-operation properties C1 asserts about each dispatched
operation. -/
def OpOk (items : List PrivItem) (op : Op) : Prop :=
  op.item ∈ items ∧
  op.targetSector = op.item.tsi + (op.cursor - op.item.start) ∧
  op.item.start ≤ op.cursor ∧
  op.cursor + op.advance ≤ op.item.endSector

/-- The cursor of each dispatched operation is the request start plus the
advances dispatched before it, and the buffer slice it receives starts at
`bufOfs = cursor - start` sectors. -/
def cursorsOk (start : Nat) : Nat → List Op → Prop
  | _, [] => True
  | c, op :: rest =>
    op.cursor = c ∧ op.cursor = start + op.bufOfs ∧
    cursorsOk start (c + op.advance) rest

theorem walk_spec (items : List PrivItem) (m start total ta : Nat)
    (hc : contiguousFrom m items = true)
    (hm : m ≤ start + ta)
    (hta : ta ≤ total)
    (hcov : start + total ≤ m + sumNums items)
    (hhead : ∀ i ∈ items.head?, start + ta ≤ i.start + i.num) :
    (walk items start total ta).2 = total ∧
    sumAdvances (walk items start total ta).1 = total - ta ∧
    cursorsOk start (start + ta) (walk items start total ta).1 ∧
    ∀ op ∈ (walk items start total ta).1, OpOk items op := by
  induction items generalizing m ta with
  | nil =>
    have hz : sumNums ([] : List PrivItem) = 0 := rfl
    have hta' : ta = total := by omega
    subst hta'
    exact ⟨rfl, by simp [sumAdvances, walk], trivial, by simp [walk]⟩
  | cons item rest ih =>
    simp only [contiguousFrom, Bool.and_eq_true, decide_eq_true_eq] at hc
    obtain ⟨hst, hcr⟩ := hc
    have hhead1 : start + ta ≤ item.start + item.num := hhead item (by simp)
    by_cases hrem : total - ta = 0
    · have hta' : ta = total := by omega
      subst hta'
      rw [walk_done]
      exact ⟨rfl, by simp [sumAdvances], trivial, by simp⟩
    · rw [show walk (item :: rest) start total ta =
          (⟨item, start + ta,
            Nat.min (total - ta) (item.start + item.num - (start + ta)),
            item.tsi + (start + ta - item.start), ta⟩ ::
            (walk rest start total
              (ta + Nat.min (total - ta) (item.start + item.num - (start + ta)))).1,
           (walk rest start total
              (ta + Nat.min (total - ta) (item.start + item.num - (start + ta)))).2)
          from by simp [walk, hrem]]
      set advance := Nat.min (total - ta) (item.start + item.num - (start + ta))
        with hadv
      have hadv_le1 : advance ≤ total - ta := Nat.min_le_left _ _
      have hadv_le2 : advance ≤ item.start + item.num - (start + ta) :=
        Nat.min_le_right _ _
      have hta2 : ta + advance ≤ total := by omega
      have hopok : OpOk (item :: rest)
          ⟨item, start + ta, advance, item.tsi + (start + ta - item.start), ta⟩ := by
        refine ⟨by simp, rfl, ?_, ?_⟩
        · show item.start ≤ start + ta
          omega
        · show start + ta + advance ≤ item.start + item.num
          omega
      by_cases hfull : total - ta ≤ item.start + item.num - (start + ta)
      · -- the request ends inside this item: advance = remaining
        have hadveq : advance = total - ta := by
          rw [hadv]; exact Nat.min_eq_left hfull
        have htot : ta + advance = total := by omega
        rw [htot, walk_done]
        refine ⟨rfl, ?_, ?_, ?_⟩
        · simp [sumAdvances, hadveq]
        · exact ⟨rfl, rfl, trivial⟩
        · intro op hop
          have : op = ⟨item, start + ta, advance,
              item.tsi + (start + ta - item.start), ta⟩ := by
            simpa using hop
          subst this; exact hopok
      · -- the request continues past this item: advance = itemEnd - curr
        have hadveq : advance = item.start + item.num - (start + ta) := by
          rw [hadv]; exact Nat.min_eq_right (Nat.le_of_not_le hfull)
        have hnext : start + (ta + advance) = item.start + item.num := by omega
        have hcov2 : start + total ≤ item.start + item.num + sumNums rest := by
          simp only [sumNums, List.map_cons, List.sum_cons] at hcov ⊢
          omega
        have hhead2 : ∀ i ∈ rest.head?,
            start + (ta + advance) ≤ i.start + i.num := by
          intro i hi
          cases rest with
          | nil => simp at hi
          | cons j s =>
            simp only [List.head?_cons, Option.mem_def, Option.some.injEq] at hi
            subst hi
            simp only [contiguousFrom, Bool.and_eq_true, decide_eq_true_eq] at hcr
            omega
        have hrec := ih _ (ta + advance) hcr (by omega) hta2 hcov2 hhead2
        obtain ⟨h2, hsum, hcur, hops⟩ := hrec
        refine ⟨h2, ?_, ?_, ?_⟩
        · simp only [sumAdvances, List.map_cons, List.sum_cons]
          simp only [sumAdvances] at hsum
          omega
        · refine ⟨rfl, rfl, ?_⟩
          rw [show start + ta + advance = start + (ta + advance) from by omega]
          exact hcur
        · intro op hop
          rcases List.mem_cons.mp hop with h | h
          · subst h; exact hopok
          · obtain ⟨hmem, hrest⟩ := hops op h
            exact ⟨List.mem_cons_of_mem _ hmem, hrest⟩

/-- Core dispatch lemma: on a non-empty table contiguous from `n`, for a
request starting at `start ≥ n` and covered by the table, the
partition-point predecessor walk terminates with all C1 properties. -/
theorem dispatch_core (table : List PrivItem) (n start total : Nat)
    (hc : contiguousFrom n table = true) (hne : table ≠ [])
    (hn : n ≤ start) (hcov : start + total ≤ n + sumNums table) :
    partitionPoint (fun x => x.start ≤ start) table ≠ 0 ∧
    (walk (table.drop (partitionPoint (fun x => x.start ≤ start) table - 1))
        start total 0).2 = total ∧
    sumAdvances (walk
        (table.drop (partitionPoint (fun x => x.start ≤ start) table - 1))
        start total 0).1 = total ∧
    cursorsOk start start (walk
        (table.drop (partitionPoint (fun x => x.start ≤ start) table - 1))
        start total 0).1 ∧
    ∀ op ∈ (walk
        (table.drop (partitionPoint (fun x => x.start ≤ start) table - 1))
        start total 0).1, OpOk table op := by
  induction table generalizing n with
  | nil => exact absurd rfl hne
  | cons i rest ih =>
    simp only [contiguousFrom, Bool.and_eq_true, decide_eq_true_eq] at hc
    obtain ⟨hst, hcr⟩ := hc
    have hids : i.start ≤ start := by omega
    have hpp : partitionPoint (fun x => x.start ≤ start) (i :: rest) =
        1 + partitionPoint (fun x => x.start ≤ start) rest := by
      simp [partitionPoint, List.takeWhile, hids, Nat.add_comm]
    cases rest with
    | nil =>
      have hpp1 : partitionPoint (fun x => x.start ≤ start) [i] = 1 := by
        simp [partitionPoint, List.takeWhile, hids]
      rw [hpp1]
      simp only [ne_eq, one_ne_zero, not_false_iff, true_and, Nat.sub_self,
        List.drop_zero]
      have := walk_spec [i] n start total 0
        (by simp [contiguousFrom, hst])
        (by omega) (by omega) hcov (by
          intro x hx
          simp only [List.head?_cons, Option.mem_def, Option.some.injEq] at hx
          subst hx
          simp only [sumNums, List.map_cons, List.map_nil, List.sum_cons,
            List.sum_nil] at hcov
          omega)
      simpa using this
    | cons j s =>
      have hjst : j.start = i.start + i.num := by
        simp only [contiguousFrom, Bool.and_eq_true, decide_eq_true_eq] at hcr
        exact hcr.1
      by_cases hj : j.start ≤ start
      · -- the predecessor is inside `j :: s`: recurse
        have hrec := ih (i.start + i.num) hcr (by simp) (by omega) (by
          simp only [sumNums, List.map_cons, List.sum_cons] at hcov ⊢
          omega)
        obtain ⟨hpp', h2, hsum, hcur, hops⟩ := hrec
        rw [hpp]
        have hppval : 1 + partitionPoint (fun x => x.start ≤ start) (j :: s) - 1 =
            (partitionPoint (fun x => x.start ≤ start) (j :: s) - 1) + 1 := by
          omega
        rw [hppval, List.drop_succ_cons]
        refine ⟨by omega, h2, hsum, hcur, ?_⟩
        intro op hop
        obtain ⟨hmem, hrest⟩ := hops op hop
        exact ⟨List.mem_cons_of_mem _ hmem, hrest⟩
      · -- the predecessor is `i` itself: `start < j.start = i.end`
        have hpp0 : partitionPoint (fun x => x.start ≤ start) (j :: s) = 0 := by
          simp [partitionPoint, List.takeWhile, hj]
        rw [hpp, hpp0]
        simp only [Nat.add_zero, Nat.sub_self, List.drop_zero, ne_eq,
          one_ne_zero, not_false_iff, true_and]
        have := walk_spec (i :: j :: s) n start total 0 (by
            simp only [contiguousFrom, Bool.and_eq_true, decide_eq_true_eq] at hcr ⊢
            exact ⟨hst, hcr⟩)
          (by omega) (by omega) hcov (by
            intro x hx
            simp only [List.head?_cons, Option.mem_def, Option.some.injEq] at hx
            subst hx
            omega)
        simpa using this

/-- C1.  For every loopback device whose mapping table is sorted, contiguous
from sector 0 and non-empty, and every read/write request whose sector range
lies within `[0, last_block]` (`tableEnd`), `access_blocks` dispatches
per-target operations whose advances sum exactly to the requested sector
count, each addressed at
`target_sector = item.target_start_sector + (cursor - item.start_sector)`
with the cursor equal to the request start plus the advances already
dispatched; and any request with `start + total` exceeding the table's end
fails `INVALID_PARAMETER` (returned before the walk, so before any target
operation runs). -/
theorem access_blocks_dispatch (table : List PrivItem) (lba bufLen : Nat)
    (hc : contiguousFrom 0 table = true) (hne : table ≠ []) :
    (lba * 512 % 2 ^ 64 / SECTOR_SIZE + bufLen / SECTOR_SIZE ≤ tableEnd table →
      ∃ ops, accessBlocks table 512 lba bufLen = some (.ok ops) ∧
        sumAdvances ops = bufLen / SECTOR_SIZE ∧
        cursorsOk (lba * 512 % 2 ^ 64 / SECTOR_SIZE)
          (lba * 512 % 2 ^ 64 / SECTOR_SIZE) ops ∧
        ∀ op ∈ ops, OpOk table op) ∧
    (tableEnd table < lba * 512 % 2 ^ 64 / SECTOR_SIZE + bufLen / SECTOR_SIZE →
      accessBlocks table 512 lba bufLen = some (.error .INVALID_PARAMETER)) := by
  constructor
  · intro hin
    have hend := tableEnd_eq_sumNums table 0 hc hne
    have hcore := dispatch_core table 0 (lba * 512 % 2 ^ 64 / SECTOR_SIZE)
      (bufLen / SECTOR_SIZE) hc hne (Nat.zero_le _) (by omega)
    obtain ⟨hpp, h2, hsum, hcur, hops⟩ := hcore
    refine ⟨(walk (table.drop
        (partitionPoint (fun x => x.start ≤ lba * 512 % 2 ^ 64 / SECTOR_SIZE)
          table - 1))
        (lba * 512 % 2 ^ 64 / SECTOR_SIZE) (bufLen / SECTOR_SIZE) 0).1,
      ?_, hsum, hcur, hops⟩
    simp only [accessBlocks]
    rw [if_neg (by omega), if_neg hpp, if_pos h2]
  · intro hover
    simp only [accessBlocks]
    rw [if_pos (by omega)]

/-- Witness for C1: a two-item table `[0,2)↦t+5, [2,5)↦t+7` and the request
`lba = 1`, two sectors (`bufLen = 1024`). -/
theorem access_blocks_dispatch_witness :
    ∃ ops,
      accessBlocks
        [⟨0, 2, 5, .zero⟩, ⟨2, 3, 7, .zero⟩] 512 1 1024 = some (.ok ops) ∧
      sumAdvances ops = 1024 / SECTOR_SIZE ∧
      cursorsOk (1 * 512 % 2 ^ 64 / SECTOR_SIZE)
        (1 * 512 % 2 ^ 64 / SECTOR_SIZE) ops ∧
      ∀ op ∈ ops, OpOk [⟨0, 2, 5, .zero⟩, ⟨2, 3, 7, .zero⟩] op :=
  (access_blocks_dispatch [⟨0, 2, 5, .zero⟩, ⟨2, 3, 7, .zero⟩] 1 1024
    (by decide) (by simp)).1 (by decide)

/-- `BlockIoMedia` fields used by the driver (`uefi_raw` block media
descriptor; fields the driver never writes are omitted). -/
structure Media where
  mediaId : Nat
  mediaPresent : Bool
  readOnly : Bool
  logicalPartition : Bool
  blockSize : Nat
  lastBlock : Nat

/-- `create_default_media` (`block_io.rs` lines 263-280). -/
def createDefaultMedia : Media :=
  { mediaId := 0, mediaPresent := false, readOnly := true,
    logicalPartition := false, blockSize := SECTOR_SIZE, lastBlock := 0 }

/-- The per-device state touched by the embedded operations
(`LoopContext`'s `media` and `table` fields). -/
structure DevState where
  media : Media
  table : List PrivItem

/-- A fresh loopback device (`install_loopback`). -/
def initialDev : DevState := { media := createDefaultMedia, table := [] }

/-- `set_media` (`loop_pt.rs` lines 232-250).  `media_id` is bumped with a
wrapping `u32` add.  Returns the source's `bool` along with the new state. -/
def setMedia (dev : DevState) (readOnly isPartition : Bool)
    (table : List PrivItem) : Bool × DevState :=
  match table.getLast? with
  | none => (false, dev)
  | some last =>
    (true,
      { media :=
          { mediaId := (dev.media.mediaId + 1) % 2 ^ 32,
            mediaPresent := true,
            readOnly := readOnly,
            logicalPartition := isPartition,
            blockSize := SECTOR_SIZE,
            lastBlock := last.start + last.num },
        table := table })

/-- `set_file` (`loop_pt.rs` lines 193-230) after a successful
`get_file_info` on a file with contents `f` and byte size `size`: a single
mapping item `start_sector = 0`, `num_sectors = size / 512`,
`target_start_sector = 0`, then `set_media`.  (The trailing
`connect_controller` call only asks the firmware to attach consumers; it is
modelled as succeeding.) -/
def setFile (dev : DevState) (readOnly isPartition : Bool)
    (f : Nat → Nat) (size : Nat) : DevState :=
  (setMedia dev readOnly isPartition
    [⟨0, size / SECTOR_SIZE, 0, .file f⟩]).2

/-- `clear` (`loop_pt.rs` lines 316-328). -/
def clearDev (dev : DevState) : DevState :=
  { media := { dev.media with mediaPresent := false, lastBlock := 0 },
    table := [] }

/-- The bytes a successful read callback stores into its buffer slice
(`read_blocks`'s closure, `block_io.rs` lines 121-156): zero-fill for
`Zero`, a copy from `pool.data[sector*512..(sector+num)*512]` for
`LoopPool`, and a file read of `advance*512` bytes at position
`sector*512` for `File` (with the interface re-verification passing). -/
def opReadBytes (op : Op) : List Nat :=
  match op.item.target with
  | .zero => List.replicate (op.advance * SECTOR_SIZE) 0
  | .pool data _ =>
    (List.range (op.advance * SECTOR_SIZE)).map
      (fun j => data (op.targetSector * SECTOR_SIZE + j))
  | .file bytes =>
    (List.range (op.advance * SECTOR_SIZE)).map
      (fun j => bytes (op.targetSector * SECTOR_SIZE + j))

/-- `validate_blocks_params` (`block_io.rs` lines 77-101); the null-pointer
checks on `this`/`buffer` are not representable for the embedded state and
are taken as passing. -/
def validateBlocksParams (dev : DevState) (mediaId bufLen : Nat) : Status :=
  if dev.media.mediaPresent = false then .NO_MEDIA
  else if mediaId ≠ dev.media.mediaId then .MEDIA_CHANGED
  else if bufLen % dev.media.blockSize ≠ 0 then .BAD_BUFFER_SIZE
  else .SUCCESS

/-- `read_blocks` (`block_io.rs` lines 103-163), returning the buffer
contents on success.  The dispatched operations fill consecutive buffer
slices, so the final buffer is their concatenation. -/
def readBlocksBytes (dev : DevState) (mediaId lba bufLen : Nat) :
    Option (Except Status (List Nat)) :=
  match validateBlocksParams dev mediaId bufLen with
  | .SUCCESS =>
    match accessBlocks dev.table dev.media.blockSize lba bufLen with
    | none => none
    | some (.error e) => some (.error e)
    | some (.ok ops) => some (.ok (ops.map opReadBytes).flatten)
  | e => some (.error e)

/-- `write_blocks` (`block_io.rs` lines 165-221), status only (the claims
about writes concern the returned status; the write-side target effects
mirror `opReadBytes` in the opposite direction). -/
def writeBlocksStatus (dev : DevState) (mediaId lba bufLen : Nat) :
    Option Status :=
  match validateBlocksParams dev mediaId bufLen with
  | .SUCCESS =>
    if dev.media.readOnly then some .WRITE_PROTECTED
    else
      match accessBlocks dev.table dev.media.blockSize lba bufLen with
      | none => none
      | some (.error e) => some e
      | some (.ok _) => some .SUCCESS
  | e => some e

/-- C6 amended.  Every successful media activation (`set_media` with a
non-empty table, shared by `set_file` and `set_mapping_table`) sets
`media_id` to `(previous + 1) mod 2^32`; this strictly exceeds the previous
value whenever the previous value is below `2^32 - 1`, and `clear` leaves
`media_id` untouched, so the property also holds for an activation following
`clear`. -/
theorem set_media_media_id (dev : DevState) (ro part : Bool)
    (table : List PrivItem) (hne : table ≠ []) :
    (setMedia dev ro part table).1 = true ∧
    ((setMedia dev ro part table).2).media.mediaId =
      (dev.media.mediaId + 1) % 2 ^ 32 ∧
    (clearDev dev).media.mediaId = dev.media.mediaId ∧
    (dev.media.mediaId < 2 ^ 32 - 1 →
      dev.media.mediaId <
        ((setMedia dev ro part table).2).media.mediaId) := by
  have hlast : table.getLast? ≠ none := by
    cases table with
    | nil => exact absurd rfl hne
    | cons a l => simp [List.getLast?_cons]
  obtain ⟨last, hl⟩ := Option.ne_none_iff_exists'.mp hlast
  refine ⟨by simp [setMedia, hl], by simp [setMedia, hl], rfl, ?_⟩
  intro hlt
  simp only [setMedia, hl]
  omega

/-- Witness for C6's amended theorem at a concrete state. -/
theorem set_media_media_id_witness :
    (setMedia initialDev true false [⟨0, 1, 0, .zero⟩]).1 = true ∧
    ((setMedia initialDev true false [⟨0, 1, 0, .zero⟩]).2).media.mediaId =
      (initialDev.media.mediaId + 1) % 2 ^ 32 ∧
    (clearDev initialDev).media.mediaId = initialDev.media.mediaId ∧
    (initialDev.media.mediaId < 2 ^ 32 - 1 →
      initialDev.media.mediaId <
        ((setMedia initialDev true false [⟨0, 1, 0, .zero⟩]).2).media.mediaId) :=
  set_media_media_id initialDev true false [⟨0, 1, 0, .zero⟩] (by simp)

/-- The chain of successful activations used to show `media_id = 2^32 - 1`
is reachable: `devAfter k` is the device after `k` successful `set_media`
activations from a fresh device. -/
def devAfter : Nat → DevState
  | 0 => initialDev
  | k + 1 => (setMedia (devAfter k) true false [⟨0, 1, 0, .zero⟩]).2

theorem devAfter_succ (k : Nat) :
    devAfter (k + 1) =
      (setMedia (devAfter k) true false [⟨0, 1, 0, .zero⟩]).2 := rfl

theorem devAfter_media_id (k : Nat) :
    (devAfter k).media.mediaId = k % 2 ^ 32 := by
  induction k with
  | zero => rfl
  | succ k ih =>
    simp only [devAfter, setMedia, List.getLast?_cons, List.getLast?_nil, ih]
    simp [Nat.add_mod]

/-- Counterexample to C6 as stated: `media_id = 2^32 - 1` is reachable (after
`2^32 - 1` successful activations), and the next successful activation wraps
`media_id` to `0`, which does not strictly exceed it. -/
theorem media_id_wraps_counterexample :
    (devAfter (2 ^ 32 - 1)).media.mediaId = 2 ^ 32 - 1 ∧
    devAfter (2 ^ 32 - 1 + 1) =
      (setMedia (devAfter (2 ^ 32 - 1)) true false [⟨0, 1, 0, .zero⟩]).2 ∧
    (setMedia (devAfter (2 ^ 32 - 1)) true false [⟨0, 1, 0, .zero⟩]).1 = true ∧
    (devAfter (2 ^ 32 - 1 + 1)).media.mediaId = 0 ∧
    ¬ (devAfter (2 ^ 32 - 1)).media.mediaId <
        (devAfter (2 ^ 32 - 1 + 1)).media.mediaId := by
  have h1 := devAfter_media_id (2 ^ 32 - 1)
  have h2 := devAfter_media_id (2 ^ 32 - 1 + 1)
  rw [Nat.mod_eq_of_lt (by norm_num)] at h1
  rw [show (2 ^ 32 - 1 + 1 : Nat) % 2 ^ 32 = 0 from by norm_num] at h2
  exact ⟨h1, devAfter_succ _, by simp [setMedia], h2, by omega⟩

/-- C10 amended.  A successful `set_file` on a file smaller than one sector
(512 bytes) activates the media with `media_present = true`,
`last_block = 0` and a single File mapping entry with `num_sectors = 0`;
afterwards every whole-sector read carrying the current media id fails
`INVALID_PARAMETER` (not `NO_MEDIA`), and so does every such write when the
device is writable — when it is read-only, writes fail `WRITE_PROTECTED`
instead. -/
theorem set_file_small_file (dev : DevState) (ro part : Bool)
    (f : Nat → Nat) (size : Nat) (hsz : size < SECTOR_SIZE) :
    (setFile dev ro part f size).media.mediaPresent = true ∧
    (setFile dev ro part f size).media.lastBlock = 0 ∧
    (setFile dev ro part f size).table = [⟨0, 0, 0, .file f⟩] ∧
    (∀ lba bufLen, SECTOR_SIZE ≤ bufLen → bufLen % SECTOR_SIZE = 0 →
      readBlocksBytes (setFile dev ro part f size)
          (setFile dev ro part f size).media.mediaId lba bufLen =
        some (.error .INVALID_PARAMETER)) ∧
    (ro = false → ∀ lba bufLen, SECTOR_SIZE ≤ bufLen → bufLen % SECTOR_SIZE = 0 →
      writeBlocksStatus (setFile dev ro part f size)
          (setFile dev ro part f size).media.mediaId lba bufLen =
        some .INVALID_PARAMETER) ∧
    (ro = true → ∀ lba bufLen, SECTOR_SIZE ≤ bufLen → bufLen % SECTOR_SIZE = 0 →
      writeBlocksStatus (setFile dev ro part f size)
          (setFile dev ro part f size).media.mediaId lba bufLen =
        some .WRITE_PROTECTED) := by
  have hdiv : size / SECTOR_SIZE = 0 := Nat.div_eq_of_lt hsz
  have hdev : setFile dev ro part f size =
      { media :=
          { mediaId := (dev.media.mediaId + 1) % 2 ^ 32,
            mediaPresent := true, readOnly := ro, logicalPartition := part,
            blockSize := SECTOR_SIZE, lastBlock := 0 },
        table := [⟨0, 0, 0, .file f⟩] } := by
    simp [setFile, setMedia, hdiv]
  rw [hdev]
  have haccess : ∀ lba bufLen, SECTOR_SIZE ≤ bufLen →
      accessBlocks [⟨0, 0, 0, .file f⟩] SECTOR_SIZE lba bufLen =
        some (.error .INVALID_PARAMETER) := by
    intro lba bufLen hlen
    have : 1 ≤ bufLen / SECTOR_SIZE := by
      have : SECTOR_SIZE > 0 := by norm_num [SECTOR_SIZE]
      exact (Nat.one_le_div_iff this).mpr hlen
    simp only [accessBlocks, tableEnd, List.getLast?_cons, List.getLast?_nil]
    rw [if_pos (by simpa using by omega)]
  refine ⟨rfl, rfl, rfl, ?_, ?_, ?_⟩
  · intro lba bufLen hlen hmod
    simp only [readBlocksBytes, validateBlocksParams]
    rw [if_neg (by simp), if_neg (by simp), if_neg (by simpa using hmod)]
    rw [haccess lba bufLen hlen]
  · intro hro lba bufLen hlen hmod
    subst hro
    simp only [writeBlocksStatus, validateBlocksParams]
    rw [if_neg (by simp), if_neg (by simp), if_neg (by simpa using hmod)]
    simp only [Bool.false_eq_true, if_false]
    rw [haccess lba bufLen hlen]
  · intro hro lba bufLen hlen hmod
    subst hro
    simp only [writeBlocksStatus, validateBlocksParams]
    rw [if_neg (by simp), if_neg (by simp), if_neg (by simpa using hmod)]
    simp

/-- Witness for C10's amended theorem: a 100-byte file on a writable device. -/
theorem set_file_small_file_witness :
    (setFile initialDev false false (fun _ => 7) 100).media.mediaPresent = true ∧
    (setFile initialDev false false (fun _ => 7) 100).media.lastBlock = 0 ∧
    (setFile initialDev false false (fun _ => 7) 100).table =
      [⟨0, 0, 0, .file (fun _ => 7)⟩] ∧
    (∀ lba bufLen, SECTOR_SIZE ≤ bufLen → bufLen % SECTOR_SIZE = 0 →
      readBlocksBytes (setFile initialDev false false (fun _ => 7) 100)
          (setFile initialDev false false (fun _ => 7) 100).media.mediaId
          lba bufLen =
        some (.error .INVALID_PARAMETER)) ∧
    (false = false → ∀ lba bufLen, SECTOR_SIZE ≤ bufLen →
      bufLen % SECTOR_SIZE = 0 →
      writeBlocksStatus (setFile initialDev false false (fun _ => 7) 100)
          (setFile initialDev false false (fun _ => 7) 100).media.mediaId
          lba bufLen =
        some .INVALID_PARAMETER) ∧
    (false = true → ∀ lba bufLen, SECTOR_SIZE ≤ bufLen →
      bufLen % SECTOR_SIZE = 0 →
      writeBlocksStatus (setFile initialDev false false (fun _ => 7) 100)
          (setFile initialDev false false (fun _ => 7) 100).media.mediaId
          lba bufLen =
        some .WRITE_PROTECTED) :=
  set_file_small_file initialDev false false (fun _ => 7) 100 (by decide)

/-- Counterexample to C10 as stated: on a read-only activation of a 100-byte
file, a one-sector write fails `WRITE_PROTECTED`, not `INVALID_PARAMETER`;
and a one-sector read carrying a stale media id fails `MEDIA_CHANGED`, not
`INVALID_PARAMETER`. -/
theorem small_file_write_protected_counterexample :
    writeBlocksStatus (setFile initialDev true false (fun _ => 7) 100)
        (setFile initialDev true false (fun _ => 7) 100).media.mediaId 0 512 =
      some .WRITE_PROTECTED ∧
    Status.WRITE_PROTECTED ≠ Status.INVALID_PARAMETER ∧
    readBlocksBytes (setFile initialDev true false (fun _ => 7) 100) 0 0 512 =
      some (.error .MEDIA_CHANGED) ∧
    Status.MEDIA_CHANGED ≠ Status.INVALID_PARAMETER := by
  refine ⟨rfl, by decide, rfl, by decide⟩

/-- The empty-patch path of `attach_loop_device` (`attach.rs` lines
263-284): `read_only` is forced on when the image parses as ISO9660, and
`set_file` is invoked on the image itself. -/
def attachNoPatch (dev : DevState) (isoOk readOnly isPartition : Bool)
    (f : Nat → Nat) (size : Nat) : DevState :=
  setFile dev (isoOk || readOnly) isPartition f size

/-- Evaluation of the walk on a single-item table covering the request. -/
theorem walk_single (item : PrivItem) (start total : Nat) (h : total ≠ 0) :
    walk [item] start total 0 =
      ([⟨item, start, Nat.min total (item.start + item.num - start),
          item.tsi + (start - item.start), 0⟩],
        Nat.min total (item.start + item.num - start)) := by
  simp [walk, h]

theorem tableEnd_singleton (i : PrivItem) : tableEnd [i] = i.start + i.num := rfl

/-- C7.  Attaching an ISO image (whose size is a whole number of 2048-byte
blocks) with an empty patch-rule list yields a mapping table that is a
single File segment covering the whole image, and every subsequent
whole-sector in-range read returns exactly the corresponding bytes of the
original image file. -/
theorem attach_empty_patch_round_trip (dev : DevState)
    (isoOk ro part : Bool) (f : Nat → Nat) (size : Nat)
    (hsz : size % 2048 = 0) :
    (attachNoPatch dev isoOk ro part f size).table =
      [⟨0, size / SECTOR_SIZE, 0, .file f⟩] ∧
    size / SECTOR_SIZE * SECTOR_SIZE = size ∧
    (attachNoPatch dev isoOk ro part f size).media.lastBlock =
      size / SECTOR_SIZE ∧
    (attachNoPatch dev isoOk ro part f size).media.mediaPresent = true ∧
    (∀ lba bufLen, lba * 512 < 2 ^ 64 → bufLen % SECTOR_SIZE = 0 →
      lba + bufLen / SECTOR_SIZE ≤ size / SECTOR_SIZE →
      readBlocksBytes (attachNoPatch dev isoOk ro part f size)
          (attachNoPatch dev isoOk ro part f size).media.mediaId lba bufLen =
        some (.ok ((List.range bufLen).map
          (fun j => f (lba * SECTOR_SIZE + j))))) := by
  have h512 : (512 : Nat) ∣ size := by
    have h2048 : (2048 : Nat) ∣ size := Nat.dvd_of_mod_eq_zero hsz
    exact dvd_trans (by norm_num) h2048
  have hdev : attachNoPatch dev isoOk ro part f size =
      { media :=
          { mediaId := (dev.media.mediaId + 1) % 2 ^ 32,
            mediaPresent := true, readOnly := (isoOk || ro),
            logicalPartition := part,
            blockSize := SECTOR_SIZE, lastBlock := size / SECTOR_SIZE },
        table := [⟨0, size / SECTOR_SIZE, 0, .file f⟩] } := by
    simp [attachNoPatch, setFile, setMedia]
  rw [hdev]
  refine ⟨rfl, Nat.div_mul_cancel h512, rfl, rfl, ?_⟩
  intro lba bufLen hlba hmod hrange
  have hstart : lba * SECTOR_SIZE % 2 ^ 64 / SECTOR_SIZE = lba := by
    have hlt : lba * SECTOR_SIZE < 2 ^ 64 := by
      simpa [SECTOR_SIZE] using hlba
    rw [Nat.mod_eq_of_lt hlt]
    exact Nat.mul_div_cancel lba (by norm_num [SECTOR_SIZE])
  have hblen : bufLen / SECTOR_SIZE * SECTOR_SIZE = bufLen :=
    Nat.div_mul_cancel (Nat.dvd_of_mod_eq_zero hmod)
  simp only [readBlocksBytes, validateBlocksParams]
  rw [if_neg (by simp), if_neg (by simp), if_neg (by simpa using hmod)]
  simp only [accessBlocks, tableEnd_singleton, hstart]
  rw [if_neg (by simp only [gt_iff_lt, not_lt]; omega)]
  have hpp : partitionPoint (fun x => x.start ≤ lba)
      [⟨0, size / SECTOR_SIZE, 0, .file f⟩] = 1 := by
    simp [partitionPoint, List.takeWhile]
  rw [hpp]
  rw [if_neg (by norm_num)]
  by_cases h0 : bufLen / SECTOR_SIZE = 0
  · rw [show (1 : Nat) - 1 = 0 from rfl, List.drop_zero, h0, walk_done]
    have hb0 : bufLen = 0 := by
      simp only [SECTOR_SIZE] at h0 hmod
      omega
    subst hb0
    simp
  · rw [show (1 : Nat) - 1 = 0 from rfl, List.drop_zero,
      walk_single _ _ _ h0]
    have hadv : Nat.min (bufLen / SECTOR_SIZE)
        ((⟨0, size / SECTOR_SIZE, 0, .file f⟩ : PrivItem).start +
          (⟨0, size / SECTOR_SIZE, 0, .file f⟩ : PrivItem).num - lba) =
        bufLen / SECTOR_SIZE := by
      refine Nat.min_eq_left ?_
      show bufLen / SECTOR_SIZE ≤ 0 + size / SECTOR_SIZE - lba
      omega
    rw [hadv]
    rw [if_pos rfl]
    simp only [List.map_cons, List.map_nil, List.flatten, List.append_nil]
    simp only [opReadBytes]
    rw [hblen]
    simp

/-- Witness for C7 at a one-block (2048-byte) image. -/
theorem attach_empty_patch_round_trip_witness :
    (attachNoPatch initialDev true false false (fun i => i % 251) 2048).table =
      [⟨0, 2048 / SECTOR_SIZE, 0, .file (fun i => i % 251)⟩] ∧
    2048 / SECTOR_SIZE * SECTOR_SIZE = 2048 ∧
    (attachNoPatch initialDev true false false
        (fun i => i % 251) 2048).media.lastBlock = 2048 / SECTOR_SIZE ∧
    (attachNoPatch initialDev true false false
        (fun i => i % 251) 2048).media.mediaPresent = true ∧
    (∀ lba bufLen, lba * 512 < 2 ^ 64 → bufLen % SECTOR_SIZE = 0 →
      lba + bufLen / SECTOR_SIZE ≤ 2048 / SECTOR_SIZE →
      readBlocksBytes (attachNoPatch initialDev true false false
            (fun i => i % 251) 2048)
          (attachNoPatch initialDev true false false
            (fun i => i % 251) 2048).media.mediaId lba bufLen =
        some (.ok ((List.range bufLen).map
          (fun j => (fun i => i % 251) (lba * SECTOR_SIZE + j))))) :=
  attach_empty_patch_round_trip initialDev true false false
    (fun i => i % 251) 2048 (by decide)

end BlockIo

namespace LoopPt

open BlockIo

/-- The `Pool` header contents read back from a payload pointer
(`PoolHeader` in `loopback/mod.rs`): the owning `LoopContext` pointer and
the payload size in bytes. -/
structure PoolMeta where
  owner : Nat
  poolSize : Nat
  deriving DecidableEq

/-- The heap of live pool allocations, keyed by payload pointer.  The header
written by `alloc_pool` sits at a fixed negative offset of the payload
pointer; `lookupPool` is the header read, and removing an entry models the
deallocation performed when the reconstructed `Box<Pool>` is dropped. -/
def Heap := List (Nat × PoolMeta)

def lookupPool (heap : Heap) (ptr : Nat) : Option PoolMeta :=
  match heap with
  | [] => none
  | (p, m) :: rest => if p = ptr then some m else lookupPool rest ptr

def removePool (heap : Heap) (ptr : Nat) : Heap :=
  match heap with
  | [] => []
  | (p, m) :: rest =>
    if p = ptr then rest else (p, m) :: removePool rest ptr

/-- `free_pool` (`loop_pt.rs` lines 368-383).  `this` is the device the call
is made on, `ptr` the payload pointer.  Null and unaligned pointers are
rejected before the `Box` is reconstructed (`Pool::boxed_from_data_ptr`,
`loopback/mod.rs` lines 61-74); pointers with no live pool header are
outside the source's defined behaviour and mapped to a rejection here.
Once `Box::from_raw` has run, the function returns with the `Box` still in
scope, so the allocation is dropped (removed from the heap) on *both* the
owner-mismatch path and the success path. -/
def freePool (this ptr : Nat) (heap : Heap) : Status × Heap :=
  if ptr = 0 then (.INVALID_PARAMETER, heap)
  else if ptr % 8 ≠ 0 then (.INVALID_PARAMETER, heap)
  else
    match lookupPool heap ptr with
    | none => (.INVALID_PARAMETER, heap)
    | some meta =>
      if meta.owner ≠ this then (.INVALID_PARAMETER, removePool heap ptr)
      else (.SUCCESS, removePool heap ptr)

/-- C8-style evaluation for C3 (code bug): device 1 owns the pool at payload
pointer 8; `free_pool` called on device 2 returns `INVALID_PARAMETER` as the
claim requires, but the reconstructed `Box<Pool>` is dropped on the early
return, so the allocation is freed — the heap no longer contains it — in
contradiction with the claim that the memory stays intact and owned by
device 1. -/
theorem free_pool_foreign_device_frees :
    freePool 2 8 [(8, ⟨1, 100⟩)] = (.INVALID_PARAMETER, []) ∧
    freePool 1 8 [(8, ⟨1, 100⟩)] = (.SUCCESS, []) ∧
    lookupPool [(8, ⟨1, 100⟩)] 8 = some ⟨1, 100⟩ ∧
    lookupPool (freePool 2 8 [(8, ⟨1, 100⟩)]).2 8 = none := by
  refine ⟨rfl, rfl, rfl, rfl⟩

/-- Stable insertion by key: together with `sortByKey` this models Rust's
stable `sort_by_key` (`table.sort_by_key(|i| i.start_sector)` and
`loop_list.sort_by_key(|i| i.0)`); Rust only promises a stable sort, which
any stable sorting algorithm realizes extensionally. -/
def insertByKey {α : Type} (key : α → Nat) (a : α) : List α → List α
  | [] => [a]
  | b :: l => if key a ≤ key b then a :: b :: l else b :: insertByKey key a l

def sortByKey {α : Type} (key : α → Nat) : List α → List α
  | [] => []
  | a :: l => insertByKey key a (sortByKey key l)

theorem insertByKey_perm {α : Type} (key : α → Nat) (a : α) (l : List α) :
    List.Perm (insertByKey key a l) (a :: l) := by
  induction l with
  | nil => exact List.Perm.refl _
  | cons b l ih =>
    simp only [insertByKey]
    by_cases h : key a ≤ key b
    · rw [if_pos h]
    · rw [if_neg h]
      exact (ih.cons b).trans (List.Perm.swap a b l)

theorem sortByKey_perm {α : Type} (key : α → Nat) (l : List α) :
    List.Perm (sortByKey key l) l := by
  induction l with
  | nil => exact List.Perm.refl _
  | cons a l ih =>
    exact (insertByKey_perm key a (sortByKey key l)).trans (ih.cons a)

deriving instance DecidableEq for Except

/-- Public mapping-table target (`LoopTarget` in `loop_pt.rs`).  A `file`
target carries the outcome the firmware file services give
`get_file_info` for it: an error status, or the file's byte size. -/
inductive LTargetM where
  | zero
  | pool (ptr : Nat)
  | file (res : Except Status Nat)
  deriving DecidableEq

/-- Public mapping-table item (`LoopMappingItem`). -/
structure LItemM where
  start : Nat
  num : Nat
  tsi : Nat
  target : LTargetM
  deriving DecidableEq

/-- Wrapping `u64` subtraction (Rust release semantics), for operands below
`2^64`. -/
def wsub64 (a b : Nat) : Nat := (a + 2 ^ 64 - b % 2 ^ 64) % 2 ^ 64

/-- The `validate_target_size` closure of `PrivMappingItem::from_loop_mapping_item`
(`loop_pt.rs` lines 86-87): `(size / 512 - target_start_sector) >= num_sectors`
with wrapping `u64` subtraction. -/
def validateTargetSize (sizeBytes : Nat) (item : LItemM) : Bool :=
  item.num ≤ wsub64 (sizeBytes / SECTOR_SIZE) item.tsi

/-- `PrivMappingItem::from_loop_mapping_item` (`loop_pt.rs` lines 81-135),
tracking which pool payload pointers the call consumed ownership of
(`Pool::boxed_from_data_ptr` succeeds exactly on 8-aligned pointers; `mem`
gives the pool size recorded in the header behind a payload pointer). -/
def fromLoopMappingItem (mem : Nat → Nat) (item : LItemM) :
    Except Status Unit × List Nat :=
  match item.target with
  | .zero => (.ok (), [])
  | .pool p =>
    if p % 8 ≠ 0 then (.error .INVALID_PARAMETER, [])
    else if validateTargetSize (mem p) item then (.ok (), [p])
    else (.error .INVALID_PARAMETER, [p])
  | .file res =>
    match res with
    | .error e => (.error e, [])
    | .ok sizeBytes =>
      if validateTargetSize sizeBytes item then (.ok (), [])
      else (.error .INVALID_PARAMETER, [])

/-- The `let _ = Pool::boxed_from_data_ptr(buffer)` reclamation performed for
items after a failure (`loop_pt.rs` lines 274-278). -/
def consumeOnErr (item : LItemM) : List Nat :=
  match item.target with
  | .pool p => if p % 8 = 0 then [p] else []
  | _ => []

/-- The item loop of `set_mapping_table` (`loop_pt.rs` lines 272-300), over
the already-sorted items.  State: `res` (first failure status), `prev_end`,
and the pool pointers consumed so far.  `.error consumed` models the
immediate `return Status::INVALID_PARAMETER` taken when a converted item is
not contiguous with `prev_end`. -/
def smtLoop (mem : Nat → Nat) :
    List LItemM → Status → Nat → List Nat →
    Except (List Nat) (Status × Nat × List Nat)
  | [], res, prevEnd, consumed => .ok (res, prevEnd, consumed)
  | item :: rest, res, prevEnd, consumed =>
    if res ≠ .SUCCESS then
      smtLoop mem rest res prevEnd (consumed ++ consumeOnErr item)
    else
      let conv := fromLoopMappingItem mem item
      let consumed' := consumed ++ conv.2
      match conv.1 with
      | .error e => smtLoop mem rest e prevEnd consumed'
      | .ok _ =>
        if item.num = 0 then smtLoop mem rest res prevEnd consumed'
        else if item.start ≠ prevEnd then .error consumed'
        else smtLoop mem rest res (item.start + item.num) consumed'

/-- `set_mapping_table` (`loop_pt.rs` lines 252-314), reduced to its status
and the set of pool payload pointers whose ownership the call consumed (on
success the surviving pools are owned by the new table; `set_media` and
`connect_controller` do not touch pool ownership). -/
def setMappingTableModel (mem : Nat → Nat) (items : List LItemM) :
    Status × List Nat :=
  match smtLoop mem (sortByKey LItemM.start items) .SUCCESS 0 [] with
  | .error consumed => (.INVALID_PARAMETER, consumed)
  | .ok (res, prevEnd, consumed) =>
    if prevEnd = 0 then (.INVALID_PARAMETER, consumed)
    else if res ≠ .SUCCESS then (res, consumed)
    else (.SUCCESS, consumed)

/-- The pool payload pointers present in an item / an item list. -/
def poolPtrsOf (item : LItemM) : List Nat :=
  match item.target with
  | .pool p => [p]
  | _ => []

def poolPtrs (items : List LItemM) : List Nat :=
  (items.map poolPtrsOf).flatten

/-- Contiguity from a given previous end, skipping zero-length items, of an
(already sorted) item list — the condition under which the loop's
non-contiguity early return can never fire. -/
def contigL : Nat → List LItemM → Bool
  | _, [] => true
  | pe, i :: r =>
    if i.num = 0 then contigL pe r
    else i.start = pe && contigL (i.start + i.num) r

/-- `uefi::Error` never wraps a success status: a modelled `file` target that
fails reports a non-`SUCCESS` status. -/
def fileErrOk (item : LItemM) : Bool :=
  match item.target with
  | .file (.error e) => e ≠ .SUCCESS
  | _ => true

theorem contigL_cons (pe : Nat) (i : LItemM) (r : List LItemM) :
    contigL pe (i :: r) =
      if i.num = 0 then contigL pe r
      else (decide (i.start = pe) && contigL (i.start + i.num) r) := rfl

theorem smtLoop_consumes (mem : Nat → Nat) (items : List LItemM) :
    ∀ (res : Status) (prevEnd : Nat) (consumed : List Nat),
    (res = .SUCCESS → contigL prevEnd items = true) →
    (∀ p ∈ poolPtrs items, p % 8 = 0) →
    (∀ i ∈ items, fileErrOk i = true) →
    ∃ res' pe', smtLoop mem items res prevEnd consumed =
      .ok (res', pe', consumed ++ poolPtrs items) := by
  induction items with
  | nil =>
    intro res prevEnd consumed _ _ _
    exact ⟨res, prevEnd, by simp [smtLoop, poolPtrs]⟩
  | cons item rest ih =>
    intro res prevEnd consumed hcontig halign hfile
    have halign' : ∀ p ∈ poolPtrs rest, p % 8 = 0 := by
      intro p hp
      apply halign p
      simp only [poolPtrs, List.map_cons, List.flatten] at hp ⊢
      exact List.mem_append_right _ hp
    have hfile' : ∀ i ∈ rest, fileErrOk i = true := fun i hi =>
      hfile i (List.mem_cons_of_mem _ hi)
    have hptrs : poolPtrs (item :: rest) = poolPtrsOf item ++ poolPtrs rest := by
      simp [poolPtrs]
    by_cases hres : res = .SUCCESS
    · subst hres
      have hcont : contigL prevEnd (item :: rest) = true := hcontig rfl
      -- shared continuation once the conversion outcome is known
      have hokstep : ∀ cs : List Nat,
          fromLoopMappingItem mem item = (.ok (), cs) →
          cs = poolPtrsOf item →
          ∃ res' pe', smtLoop mem (item :: rest) .SUCCESS prevEnd consumed =
            .ok (res', pe', consumed ++ poolPtrs (item :: rest)) := by
        intro cs hfrom hcs
        have hstep : smtLoop mem (item :: rest) .SUCCESS prevEnd consumed =
            (if item.num = 0 then
              smtLoop mem rest .SUCCESS prevEnd (consumed ++ cs)
            else if item.start ≠ prevEnd then .error (consumed ++ cs)
            else smtLoop mem rest .SUCCESS (item.start + item.num)
              (consumed ++ cs)) := by
          simp [smtLoop, hfrom]
        rw [hstep]
        by_cases hnum : item.num = 0
        · rw [if_pos hnum]
          have hcont' : contigL prevEnd rest = true := by
            rw [contigL_cons, if_pos hnum] at hcont
            exact hcont
          obtain ⟨r', p', h⟩ := ih .SUCCESS prevEnd (consumed ++ cs)
            (fun _ => hcont') halign' hfile'
          exact ⟨r', p', by simpa [hptrs, hcs] using h⟩
        · rw [contigL_cons, if_neg hnum, Bool.and_eq_true,
            decide_eq_true_eq] at hcont
          obtain ⟨hst, hcont'⟩ := hcont
          rw [if_neg hnum, if_neg (by simp [hst])]
          obtain ⟨r', p', h⟩ := ih .SUCCESS (item.start + item.num)
            (consumed ++ cs) (fun _ => hcont') halign' hfile'
          exact ⟨r', p', by simpa [hptrs, hcs] using h⟩
      have herrstep : ∀ (e : Status) (cs : List Nat),
          fromLoopMappingItem mem item = (.error e, cs) →
          cs = poolPtrsOf item → e ≠ .SUCCESS →
          ∃ res' pe', smtLoop mem (item :: rest) .SUCCESS prevEnd consumed =
            .ok (res', pe', consumed ++ poolPtrs (item :: rest)) := by
        intro e cs hfrom hcs he
        have hstep : smtLoop mem (item :: rest) .SUCCESS prevEnd consumed =
            smtLoop mem rest e prevEnd (consumed ++ cs) := by
          simp [smtLoop, hfrom]
        rw [hstep]
        obtain ⟨r', p', h⟩ := ih e prevEnd (consumed ++ cs)
          (fun hh => absurd hh he) halign' hfile'
        exact ⟨r', p', by simpa [hptrs, hcs] using h⟩
      match htgt : item.target with
      | .zero =>
        exact hokstep [] (by simp [fromLoopMappingItem, htgt])
          (by simp [poolPtrsOf, htgt])
      | .pool ptr =>
        have hal : ptr % 8 = 0 := halign ptr (by
          simp [poolPtrs, poolPtrsOf, htgt])
        by_cases hval : validateTargetSize (mem ptr) item = true
        · exact hokstep [ptr]
            (by simp [fromLoopMappingItem, htgt, hal, hval])
            (by simp [poolPtrsOf, htgt])
        · exact herrstep .INVALID_PARAMETER [ptr]
            (by simp [fromLoopMappingItem, htgt, hal, hval])
            (by simp [poolPtrsOf, htgt]) (by intro h; cases h)
      | .file fres =>
        match hfr : fres with
        | .error e =>
          have he : e ≠ .SUCCESS := by
            have := hfile item (by simp)
            simpa [fileErrOk, htgt, hfr] using this
          exact herrstep e [] (by simp [fromLoopMappingItem, htgt, hfr])
            (by simp [poolPtrsOf, htgt]) he
        | .ok sizeBytes =>
          by_cases hval : validateTargetSize sizeBytes item = true
          · exact hokstep []
              (by simp [fromLoopMappingItem, htgt, hfr, hval])
              (by simp [poolPtrsOf, htgt])
          · exact herrstep .INVALID_PARAMETER []
              (by simp [fromLoopMappingItem, htgt, hfr, hval])
              (by simp [poolPtrsOf, htgt]) (by intro h; cases h)
    · have hstep : smtLoop mem (item :: rest) res prevEnd consumed =
          smtLoop mem rest res prevEnd (consumed ++ consumeOnErr item) := by
        simp [smtLoop, hres]
      rw [hstep]
      have hcons : consumeOnErr item = poolPtrsOf item := by
        match htgt : item.target with
        | .zero => simp [consumeOnErr, poolPtrsOf, htgt]
        | .file fres => simp [consumeOnErr, poolPtrsOf, htgt]
        | .pool ptr =>
          have hal : ptr % 8 = 0 := halign ptr (by
            simp [poolPtrs, poolPtrsOf, htgt])
          simp [consumeOnErr, poolPtrsOf, htgt, hal]
      obtain ⟨r', p', h⟩ := ih res prevEnd (consumed ++ consumeOnErr item)
        (fun hh => absurd hh hres) halign' hfile'
      exact ⟨r', p', by simpa [hptrs, hcons] using h⟩

/-- C2 amended.  As long as the (stably sorted) supplied items are
contiguous from sector 0 — so the non-contiguity early return cannot fire —
`set_mapping_table` consumes ownership of every 8-aligned `Pool` payload
pointer present anywhere in the supplied items, whatever its outcome:
items after the first per-item conversion failure are skipped but their
pools are still reclaimed.  (Without the contiguity condition this fails:
the non-contiguity check returns `INVALID_PARAMETER` immediately and pools
in strictly later items are not reclaimed; see the counterexample.) -/
theorem set_mapping_table_pools_consumed (mem : Nat → Nat)
    (items : List LItemM)
    (hcontig : contigL 0 (sortByKey LItemM.start items) = true)
    (halign : ∀ p ∈ poolPtrs items, p % 8 = 0)
    (hfile : ∀ i ∈ items, fileErrOk i = true) :
    ∀ p ∈ poolPtrs items, p ∈ (setMappingTableModel mem items).2 := by
  have hperm := sortByKey_perm LItemM.start items
  have hmemiff : ∀ p, p ∈ poolPtrs (sortByKey LItemM.start items) ↔
      p ∈ poolPtrs items := by
    intro p
    simp only [poolPtrs, List.mem_flatten, List.mem_map]
    constructor
    · rintro ⟨l, ⟨i, hi, rfl⟩, hp⟩
      exact ⟨poolPtrsOf i, ⟨i, hperm.mem_iff.mp hi, rfl⟩, hp⟩
    · rintro ⟨l, ⟨i, hi, rfl⟩, hp⟩
      exact ⟨poolPtrsOf i, ⟨i, hperm.mem_iff.mpr hi, rfl⟩, hp⟩
  have halign' : ∀ p ∈ poolPtrs (sortByKey LItemM.start items), p % 8 = 0 :=
    fun p hp => halign p ((hmemiff p).mp hp)
  have hfile' : ∀ i ∈ sortByKey LItemM.start items, fileErrOk i = true :=
    fun i hi => hfile i (hperm.mem_iff.mp hi)
  obtain ⟨r', p', h⟩ := smtLoop_consumes mem (sortByKey LItemM.start items)
    .SUCCESS 0 [] (fun _ => hcontig) halign' hfile'
  have h2 : (setMappingTableModel mem items).2 =
      poolPtrs (sortByKey LItemM.start items) := by
    simp only [setMappingTableModel, h, List.nil_append]
    split
    · simp
    · split <;> simp
  intro p hp
  rw [h2]
  exact (hmemiff p).mpr hp

/-- Witness for C2's amended theorem: a contiguous three-item table whose
middle item is a File target that fails resolution with `NOT_FOUND`; the
call fails, and both pools — including the one in the item after the
failure — are consumed. -/
theorem set_mapping_table_pools_consumed_witness :
    (setMappingTableModel (fun _ => 512)
      [⟨0, 1, 0, .pool 8⟩, ⟨1, 1, 0, .file (.error .NOT_FOUND)⟩,
       ⟨2, 1, 0, .pool 16⟩]).1 = .NOT_FOUND ∧
    ∀ p ∈ poolPtrs
        [⟨0, 1, 0, .pool 8⟩, ⟨1, 1, 0, .file (.error .NOT_FOUND)⟩,
         ⟨2, 1, 0, .pool 16⟩],
      p ∈ (setMappingTableModel (fun _ => 512)
        [⟨0, 1, 0, .pool 8⟩, ⟨1, 1, 0, .file (.error .NOT_FOUND)⟩,
         ⟨2, 1, 0, .pool 16⟩]).2 :=
  ⟨by decide,
    set_mapping_table_pools_consumed (fun _ => 512)
      [⟨0, 1, 0, .pool 8⟩, ⟨1, 1, 0, .file (.error .NOT_FOUND)⟩,
       ⟨2, 1, 0, .pool 16⟩]
      (by decide) (by decide) (by decide)⟩

/-- Counterexample to C2 as stated: a non-contiguous table of three valid
pool-backed items.  The call fails `INVALID_PARAMETER` at the second item
(start 5 after end 1), having consumed pools 8 and 16; the third item's
pool 24 is never reclaimed — its ownership stays with the caller. -/
theorem set_mapping_table_noncontig_pool_leak :
    (setMappingTableModel (fun _ => 512)
      [⟨0, 1, 0, .pool 8⟩, ⟨5, 1, 0, .pool 16⟩, ⟨6, 1, 0, .pool 24⟩]).1 =
      .INVALID_PARAMETER ∧
    (setMappingTableModel (fun _ => 512)
      [⟨0, 1, 0, .pool 8⟩, ⟨5, 1, 0, .pool 16⟩, ⟨6, 1, 0, .pool 24⟩]).2 =
      [8, 16] ∧
    24 ∈ poolPtrs
      [⟨0, 1, 0, .pool 8⟩, ⟨5, 1, 0, .pool 16⟩, ⟨6, 1, 0, .pool 24⟩] ∧
    24 ∉ (setMappingTableModel (fun _ => 512)
      [⟨0, 1, 0, .pool 8⟩, ⟨5, 1, 0, .pool 16⟩, ⟨6, 1, 0, .pool 24⟩]).2 := by
  refine ⟨by decide, by decide, by decide, by decide⟩

end LoopPt

namespace LoopCtl

open LoopPt (sortByKey insertByKey)

/-- One entry of the controller's child list
(`ControlContext::loop_list`): unit number, child handle, and whether the
child is free (`LoopContext::is_free`, i.e. `media_present == false`). -/
structure Child where
  unit : Nat
  handle : Nat
  free : Bool
  deriving DecidableEq

inductive ScanRes where
  | found (h : Nat)
  | aborted
  | install (u : Nat)
  deriving DecidableEq

/-- The scan loop of `get_free` (`loop_ctl.rs` lines 40-53): return the
first free child's handle; otherwise track the lowest free unit number,
incrementing with `checked_add` (which fails exactly at `u32::MAX`,
yielding `ABORTED`). -/
def getFreeScan : List Child → Nat → ScanRes
  | [], acc => .install acc
  | c :: rest, acc =>
    if c.free then .found c.handle
    else if c.unit = acc then
      if acc = 2 ^ 32 - 1 then .aborted
      else getFreeScan rest (acc + 1)
    else getFreeScan rest acc

/-- `add_loopback` (`loop_ctl.rs` lines 21-28), with `install_loopback`
modelled as succeeding with the fresh handle `fresh`: push the new child
(free, since its media starts absent) and stably re-sort by unit number. -/
def addLoopback (l : List Child) (u fresh : Nat) : List Child :=
  sortByKey Child.unit (l ++ [⟨u, fresh, true⟩])

/-- `get_free` (`loop_ctl.rs` lines 30-61): the returned status, the handle
written through `loop_handle`, and the controller's child list afterwards. -/
def getFree (l : List Child) (fresh : Nat) :
    Status × Option Nat × List Child :=
  match getFreeScan l 0 with
  | .found h => (.SUCCESS, some h, l)
  | .aborted => (.ABORTED, none, l)
  | .install u => (.SUCCESS, some fresh, addLoopback l u fresh)

/-- The scan returns the first free child's handle, whatever the counter,
provided every earlier (necessarily non-free) child has a unit number below
`u32::MAX` (so `checked_add` cannot fail first). -/
theorem getFreeScan_found (pre : List Child) (c : Child) (post : List Child)
    (hpre : ∀ d ∈ pre, d.free = false)
    (hbound : ∀ d ∈ pre, d.unit < 2 ^ 32 - 1)
    (hc : c.free = true) :
    ∀ acc, getFreeScan (pre ++ c :: post) acc = .found c.handle := by
  induction pre with
  | nil =>
    intro acc
    simp [getFreeScan, hc]
  | cons d pre' ih =>
    intro acc
    have hdf : d.free = false := hpre d (by simp)
    have hdb : d.unit < 2 ^ 32 - 1 := hbound d (by simp)
    have ih' := ih (fun x hx => hpre x (List.mem_cons_of_mem _ hx))
      (fun x hx => hbound x (List.mem_cons_of_mem _ hx))
    simp only [List.cons_append, getFreeScan, hdf, Bool.false_eq_true,
      if_false]
    by_cases hu : d.unit = acc
    · rw [if_pos hu, if_neg (by omega)]
      exact ih' (acc + 1)
    · rw [if_neg hu]
      exact ih' acc

/-- Invariants of the scan over a strictly-sorted, all-non-free child list:
it never "finds" a child; if it aborts, every unit in `[acc, 2^32)` is
taken; if it reports `u` to install, `u` is within `[acc, 2^32 - 1]`, is
not a unit in use, and every unit in `[acc, u)` is taken. -/
theorem getFreeScan_nofree (l : List Child) :
    ∀ acc, (∀ c ∈ l, c.free = false) →
    List.Pairwise (fun a b => a.unit < b.unit) l →
    (∀ c ∈ l, c.unit < 2 ^ 32) →
    acc ≤ 2 ^ 32 - 1 →
    (∀ h, getFreeScan l acc ≠ .found h) ∧
    (getFreeScan l acc = .aborted →
      ∀ m, acc ≤ m → m < 2 ^ 32 → ∃ c ∈ l, c.unit = m) ∧
    (∀ u, getFreeScan l acc = .install u →
      acc ≤ u ∧ u ≤ 2 ^ 32 - 1 ∧ (∀ c ∈ l, c.unit ≠ u) ∧
      ∀ m, acc ≤ m → m < u → ∃ c ∈ l, c.unit = m) := by
  induction l with
  | nil =>
    intro acc _ _ _ hacc
    refine ⟨by simp [getFreeScan], by simp [getFreeScan], ?_⟩
    intro u hu
    simp only [getFreeScan, ScanRes.install.injEq] at hu
    subst hu
    exact ⟨le_refl _, hacc, by simp, fun m h1 h2 => absurd h1 (by omega)⟩
  | cons c rest ih =>
    intro acc hfree hpw hlt hacc
    have hcf : c.free = false := hfree c (by simp)
    have hcu : c.unit < 2 ^ 32 := hlt c (by simp)
    have hpw' : List.Pairwise (fun a b => a.unit < b.unit) rest :=
      hpw.of_cons
    have hpwc : ∀ b ∈ rest, c.unit < b.unit :=
      (List.pairwise_cons.mp hpw).1
    have hfree' : ∀ x ∈ rest, x.free = false :=
      fun x hx => hfree x (List.mem_cons_of_mem _ hx)
    have hlt' : ∀ x ∈ rest, x.unit < 2 ^ 32 :=
      fun x hx => hlt x (List.mem_cons_of_mem _ hx)
    simp only [getFreeScan, hcf, Bool.false_eq_true, if_false]
    by_cases hu : c.unit = acc
    · rw [if_pos hu]
      by_cases hmax : acc = 2 ^ 32 - 1
      · rw [if_pos hmax]
        refine ⟨by simp, ?_, by simp⟩
        intro _ m h1 h2
        exact ⟨c, by simp, by omega⟩
      · rw [if_neg hmax]
        obtain ⟨h1, h2, h3⟩ := ih (acc + 1) hfree' hpw' hlt' (by omega)
        refine ⟨h1, ?_, ?_⟩
        · intro hab m hm1 hm2
          by_cases hm : m = acc
          · exact ⟨c, by simp, by omega⟩
          · obtain ⟨x, hx, hxu⟩ := h2 hab m (by omega) hm2
            exact ⟨x, List.mem_cons_of_mem _ hx, hxu⟩
        · intro u hins
          obtain ⟨g1, g2, g3, g4⟩ := h3 u hins
          refine ⟨by omega, g2, ?_, ?_⟩
          · intro x hx
            rcases List.mem_cons.mp hx with h | h
            · subst h; omega
            · exact g3 x h
          · intro m hm1 hm2
            by_cases hm : m = acc
            · exact ⟨c, by simp, by omega⟩
            · obtain ⟨x, hx, hxu⟩ := g4 m (by omega) hm2
              exact ⟨x, List.mem_cons_of_mem _ hx, hxu⟩
    · rw [if_neg hu]
      obtain ⟨h1, h2, h3⟩ := ih acc hfree' hpw' hlt' hacc
      refine ⟨h1, ?_, ?_⟩
      · intro hab m hm1 hm2
        obtain ⟨x, hx, hxu⟩ := h2 hab m hm1 hm2
        exact ⟨x, List.mem_cons_of_mem _ hx, hxu⟩
      · intro u hins
        obtain ⟨g1, g2, g3, g4⟩ := h3 u hins
        refine ⟨g1, g2, ?_, ?_⟩
        · intro x hx
          rcases List.mem_cons.mp hx with h | h
          · rw [h]
            -- c.unit ≠ u: all of [acc, u) lies in rest, whose units
            -- exceed c.unit
            intro hcu'
            by_cases hacc' : c.unit = acc
            · exact hu hacc'
            · have haccu : acc < u := by
                rcases Nat.lt_or_ge acc u with hlt2 | hge
                · exact hlt2
                · omega
              obtain ⟨x2, hx2, hxu2⟩ := g4 acc (le_refl _) haccu
              have hcx := hpwc x2 hx2
              omega
          · exact g3 x h
        · intro m hm1 hm2
          obtain ⟨x, hx, hxu⟩ := g4 m hm1 hm2
          exact ⟨x, List.mem_cons_of_mem _ hx, hxu⟩

theorem getFree_found_of_first_free (l : List Child) (fresh : Nat)
    (hsorted : List.Pairwise (fun a b => a.unit < b.unit) l)
    (hlt : ∀ c ∈ l, c.unit < 2 ^ 32)
    (pre : List Child) (c : Child) (post : List Child)
    (heq : l = pre ++ c :: post)
    (hpre : ∀ d ∈ pre, d.free = false) (hcf : c.free = true) :
    getFree l fresh = (.SUCCESS, some c.handle, l) := by
  have hcl : c ∈ l := by
    rw [heq]
    exact List.mem_append_right _ (by simp)
  have hcu : c.unit < 2 ^ 32 := hlt c hcl
  have hbound : ∀ d ∈ pre, d.unit < 2 ^ 32 - 1 := by
    intro d hd
    rw [heq] at hsorted
    have hp := (List.pairwise_append.mp hsorted).2.2 d hd c (by simp)
    omega
  have hscan : getFreeScan l 0 = .found c.handle := by
    rw [heq]
    exact getFreeScan_found pre c post hpre hbound hcf 0
  simp [getFree, hscan]

theorem exists_first_free (l : List Child) (hx : ∃ c ∈ l, c.free = true) :
    ∃ pre c post, l = pre ++ c :: post ∧ (∀ d ∈ pre, d.free = false) ∧
      c.free = true := by
  induction l with
  | nil => simp at hx
  | cons a rest ih =>
    by_cases ha : a.free = true
    · exact ⟨[], a, rest, rfl, by simp, ha⟩
    · obtain ⟨c, hc, hcf⟩ := hx
      rcases List.mem_cons.mp hc with heq | hc'
      · rw [heq] at hcf
        exact absurd hcf ha
      · obtain ⟨pre, c', post, heq, hpre, hcf'⟩ := ih ⟨c, hc', hcf⟩
        refine ⟨a :: pre, c', post, by rw [heq]; rfl, ?_, hcf'⟩
        intro d hd
        rcases List.mem_cons.mp hd with hda | hd'
        · rw [hda]
          exact Bool.not_eq_true a.free ▸ by simpa using ha
        · exact hpre d hd'

/-- C5.  With the child list strictly sorted by unit number (the
controller's invariant) and every unit a valid `u32`: (1) `get_free`
returns the handle of the first free child and leaves the list unchanged —
so calling it twice while that child remains free returns the same handle
both times and creates no new child; (2) if no child is free and some unit
below `2^32` is unused, it installs a new child whose unit is the smallest
nonnegative integer not in use and returns the fresh handle; (3) it fails
`ABORTED` exactly when the unit-number computation overflows `u32`, i.e.
no child is free and every 32-bit unit number is taken. -/
theorem get_free_spec (l : List Child) (fresh fresh2 : Nat)
    (hsorted : List.Pairwise (fun a b => a.unit < b.unit) l)
    (hlt : ∀ c ∈ l, c.unit < 2 ^ 32) :
    (∀ pre c post, l = pre ++ c :: post → (∀ d ∈ pre, d.free = false) →
      c.free = true →
      getFree l fresh = (.SUCCESS, some c.handle, l) ∧
      getFree (getFree l fresh).2.2 fresh2 = (.SUCCESS, some c.handle, l)) ∧
    ((∀ c ∈ l, c.free = false) →
      (∃ m, m < 2 ^ 32 ∧ ∀ c ∈ l, c.unit ≠ m) →
      ∃ u, getFree l fresh = (.SUCCESS, some fresh, addLoopback l u fresh) ∧
        u < 2 ^ 32 ∧ (∀ c ∈ l, c.unit ≠ u) ∧
        (∀ m, m < u → ∃ c ∈ l, c.unit = m)) ∧
    ((getFree l fresh).1 = .ABORTED ↔
      ((∀ c ∈ l, c.free = false) ∧
        ∀ m, m < 2 ^ 32 → ∃ c ∈ l, c.unit = m)) := by
  refine ⟨?_, ?_, ?_, ?_⟩
  · intro pre c post heq hpre hcf
    have h1 := getFree_found_of_first_free l fresh hsorted hlt
      pre c post heq hpre hcf
    have h2 := getFree_found_of_first_free l fresh2 hsorted hlt
      pre c post heq hpre hcf
    refine ⟨h1, ?_⟩
    rw [h1]
    exact h2
  · rintro hfree ⟨m, hm, hmnot⟩
    obtain ⟨h1, h2, h3⟩ := getFreeScan_nofree l 0 hfree hsorted hlt
      (by norm_num)
    cases hscan : getFreeScan l 0 with
    | found h => exact absurd hscan (h1 h)
    | aborted =>
      obtain ⟨c, hc, hcu⟩ := h2 hscan m (Nat.zero_le _) hm
      exact absurd hcu (hmnot c hc)
    | install u =>
      obtain ⟨g1, g2, g3, g4⟩ := h3 u hscan
      refine ⟨u, ?_, by omega, g3, fun m' hm' => g4 m' (Nat.zero_le _) hm'⟩
      simp [getFree, hscan]
  · intro hab
    cases hscan : getFreeScan l 0 with
    | found h => simp [getFree, hscan] at hab
    | install u => simp [getFree, hscan] at hab
    | aborted =>
      by_cases hf : ∀ c ∈ l, c.free = false
      · obtain ⟨h1, h2, h3⟩ := getFreeScan_nofree l 0 hf hsorted hlt
          (by norm_num)
        exact ⟨hf, fun m hm => h2 hscan m (Nat.zero_le _) hm⟩
      · exfalso
        push_neg at hf
        obtain ⟨c, hc, hcf⟩ := hf
        have hcf' : c.free = true := by simpa using hcf
        obtain ⟨pre, c', post, heq, hpre, hcf2⟩ :=
          exists_first_free l ⟨c, hc, hcf'⟩
        have hfound := getFree_found_of_first_free l fresh hsorted hlt
          pre c' post heq hpre hcf2
        rw [hfound] at hab
        simp at hab
  · rintro ⟨hfree, hall⟩
    obtain ⟨h1, h2, h3⟩ := getFreeScan_nofree l 0 hfree hsorted hlt
      (by norm_num)
    cases hscan : getFreeScan l 0 with
    | found h => exact absurd hscan (h1 h)
    | aborted => simp [getFree, hscan]
    | install u =>
      obtain ⟨g1, g2, g3, g4⟩ := h3 u hscan
      obtain ⟨c, hc, hcu⟩ := hall u (by omega)
      exact absurd hcu (g3 c hc)

/-- Witness for C5: a controller with the single free child
`unit 0, handle 42`. -/
theorem get_free_spec_witness :
    (∀ pre c post, [(⟨0, 42, true⟩ : Child)] = pre ++ c :: post →
      (∀ d ∈ pre, d.free = false) → c.free = true →
      getFree [⟨0, 42, true⟩] 7 = (.SUCCESS, some c.handle, [⟨0, 42, true⟩]) ∧
      getFree (getFree [⟨0, 42, true⟩] 7).2.2 9 =
        (.SUCCESS, some c.handle, [⟨0, 42, true⟩])) ∧
    ((∀ c ∈ [(⟨0, 42, true⟩ : Child)], c.free = false) →
      (∃ m, m < 2 ^ 32 ∧ ∀ c ∈ [(⟨0, 42, true⟩ : Child)], c.unit ≠ m) →
      ∃ u, getFree [⟨0, 42, true⟩] 7 =
          (.SUCCESS, some 7, addLoopback [⟨0, 42, true⟩] u 7) ∧
        u < 2 ^ 32 ∧ (∀ c ∈ [(⟨0, 42, true⟩ : Child)], c.unit ≠ u) ∧
        (∀ m, m < u → ∃ c ∈ [(⟨0, 42, true⟩ : Child)], c.unit = m)) ∧
    ((getFree [⟨0, 42, true⟩] 7).1 = .ABORTED ↔
      ((∀ c ∈ [(⟨0, 42, true⟩ : Child)], c.free = false) ∧
        ∀ m, m < 2 ^ 32 → ∃ c ∈ [(⟨0, 42, true⟩ : Child)], c.unit = m)) :=
  get_free_spec [⟨0, 42, true⟩] 7 9 (by simp) (by simp)

end LoopCtl

namespace Iso

/-- One 2048-byte volume descriptor as read by `find_pvd_position`
(`utils.rs` lines 134-155): type byte (offset 0), identifier bytes `1..6`,
version byte at offset 6. -/
structure VDesc where
  ty : Nat
  ident : List Nat
  ver : Nat
  deriving DecidableEq

/-- The bytes of `b"CD001"`. -/
def cd001 : List Nat := [0x43, 0x44, 0x30, 0x30, 0x31]

/-- The scan loop of `find_pvd_position` (`utils.rs` lines 137-153) over
the descriptors stored from block `start` upward; reading past the end of
the medium underflows, which `ISO9660::read` reports as `DEVICE_ERROR`.
The source's sanity check is `if vd_id != b"CD001" && vd_ver != 1` —
faithfully, a descriptor is rejected only when the identifier *and* the
version both mismatch. -/
def findPvdLoop : List VDesc → Nat → Except Status Nat
  | [], _ => .error .DEVICE_ERROR
  | d :: rest, start =>
    if d.ident ≠ cd001 ∧ d.ver ≠ 1 then .error .ABORTED
    else if d.ty = 255 then .error .NOT_FOUND
    else if d.ty = 1 then .ok (start * 2048)
    else findPvdLoop rest (start + 1)

/-- `find_pvd_position`: the scan starts at block 16 and returns the
position `start * ISO_BLOCK_SIZE` of the block that breaks the loop. -/
def findPvdPosition (descs : List VDesc) : Except Status Nat :=
  findPvdLoop descs 16

/-- C8 (code bug).  The sanity check uses `&&` where the claim (and the
evident intent of a `"CD001"`/version sanity check) requires `||`: a
type-1 descriptor at block 16 whose identifier is `"XXXXX"` but whose
version is 1 is accepted and its position returned instead of `ABORTED`
(first two conjuncts); only a descriptor failing *both* checks is rejected
(last conjunct).  The surrounding behaviour the claim describes — first
type-1 position returned scanning upward, `NOT_FOUND` at a type-255
terminator — is as stated (middle conjuncts). -/
theorem find_pvd_bad_identifier_accepted :
    findPvdPosition [⟨1, [0x58, 0x58, 0x58, 0x58, 0x58], 1⟩] =
      .ok (16 * 2048) ∧
    ([0x58, 0x58, 0x58, 0x58, 0x58] : List Nat) ≠ cd001 ∧
    findPvdPosition [⟨1, [0x58, 0x58, 0x58, 0x58, 0x58], 1⟩] ≠
      .error .ABORTED ∧
    findPvdPosition [⟨0, cd001, 1⟩, ⟨1, cd001, 1⟩] = .ok (17 * 2048) ∧
    findPvdPosition [⟨255, cd001, 1⟩] = .error .NOT_FOUND ∧
    findPvdPosition [⟨1, [0x58, 0x58, 0x58, 0x58, 0x58], 2⟩] =
      .error .ABORTED := by
  refine ⟨by decide, by decide, by decide, by decide, by decide, by decide⟩

end Iso

namespace Cpio

open BlockIo (SECTOR_SIZE)

/-- ASCII bytes of a string literal. -/
def strBytes (s : String) : List Nat := s.toList.map Char.toNat

/-- ASCII code of one hex digit (`write_hex`'s digit emission: `m + b'0'`
below 10, `m - 10 + b'a'` otherwise). -/
def hexChar (m : Nat) : Nat := if m < 10 then m + 48 else m - 10 + 97

/-- `write_hex` (`attach.rs` lines 143-149): the eight ASCII-hex characters
of a `u32` value, most significant first (the `as u32` casts in the caller
truncate mod `2^32`). -/
def writeHex (v : Nat) : List Nat :=
  (List.range 8).map (fun i => hexChar (v % 2 ^ 32 / 16 ^ (7 - i) % 16))

/-- Eight `'0'` characters: a field of a zero-initialized, `'0'`-filled
`CpioNewcHeader`. -/
def zeros8 : List Nat := List.replicate 8 48

/-- `CpioNewcHeader` (`attach.rs` lines 114-131): 6-byte magic plus 13
eight-character fields; `bytes` serializes them in declaration order
(`repr(C)` layout, `bytemuck::bytes_of`). -/
structure NewcHeader where
  ino : List Nat
  mode : List Nat
  uid : List Nat
  gid : List Nat
  nLink : List Nat
  mtime : List Nat
  fileSize : List Nat
  devMajor : List Nat
  devMinor : List Nat
  rdevMajor : List Nat
  rdevMinor : List Nat
  nameSize : List Nat
  check : List Nat

def NewcHeader.bytes (h : NewcHeader) : List Nat :=
  strBytes "070701" ++ h.ino ++ h.mode ++ h.uid ++ h.gid ++ h.nLink ++
    h.mtime ++ h.fileSize ++ h.devMajor ++ h.devMinor ++ h.rdevMajor ++
    h.rdevMinor ++ h.nameSize ++ h.check

/-- The metadata-file header as written by `read_to_end`: `'0'`-filled,
magic set, `ino = deadbeef`, `mode = 0o100644`, and the per-entry fields
`n_link = 1`, `file_size`, `name_size` filled in the emission loop. -/
def metadataHeader (fileSize nameSize : Nat) : NewcHeader :=
  { ino := writeHex 0xdeadbeef, mode := writeHex 0o100644,
    uid := zeros8, gid := zeros8, nLink := writeHex 1, mtime := zeros8,
    fileSize := writeHex fileSize, devMajor := zeros8, devMinor := zeros8,
    rdevMajor := zeros8, rdevMinor := zeros8,
    nameSize := writeHex nameSize, check := zeros8 }

/-- The trailer header as written by `read_to_end`: `'0'`-filled, magic
set, and the same per-entry loop writes `n_link = 1`, `file_size = 0`,
`name_size = 11`. -/
def trailerHeader : NewcHeader :=
  { ino := zeros8, mode := zeros8, uid := zeros8, gid := zeros8,
    nLink := writeHex 1, mtime := zeros8, fileSize := writeHex 0,
    devMajor := zeros8, devMinor := zeros8, rdevMajor := zeros8,
    rdevMinor := zeros8, nameSize := writeHex 11, check := zeros8 }

def META_FILE_NAME : List Nat := strBytes ".uefi-lopatch-metadata"

def TRAILER_NAME : List Nat := strBytes "TRAILER!!!"

/-- `four_bytes_padded_size` (`attach.rs` line 133). -/
def fourPad (n : Nat) : Nat := (n + 3) / 4 * 4

/-- `mem::size_of::<CpioNewcHeader>()` = 6 + 13 * 8. -/
def HEADER_SIZE : Nat := 110

/-- `calc_cpio_entry_size` (`attach.rs` lines 137-141). -/
def calcCpioEntrySize (nameSize fileSize : Nat) : Nat :=
  fourPad (HEADER_SIZE + nameSize) + fourPad fileSize

/-- `MetaCpioChunk::size` (`attach.rs` lines 164-170). -/
def metaCpioSize (metadata : List Nat) : Nat :=
  (calcCpioEntrySize (META_FILE_NAME.length + 1) metadata.length +
      calcCpioEntrySize (TRAILER_NAME.length + 1) 0 + SECTOR_SIZE - 1) /
    SECTOR_SIZE * SECTOR_SIZE

/-- One iteration of the emission loop of `MetaCpioChunk::read_to_end`
(`attach.rs` lines 199-217): the header, the name zero-filled up to
`four_bytes_padded_size(header + name + NUL) - header`, and the data
zero-padded to 4 bytes. -/
def entryBytes (header : NewcHeader) (name data : List Nat) : List Nat :=
  header.bytes ++
    (name ++ List.replicate
      (fourPad (HEADER_SIZE + name.length + 1) - HEADER_SIZE - name.length)
      0) ++
    (data ++ List.replicate (fourPad data.length - data.length) 0)

/-- `MetaCpioChunk::read_to_end` (`attach.rs` lines 172-220).  The loop
writes strictly sequentially into the buffer (the position only advances
and every region is filled exactly once), so the produced buffer is the
concatenation of the two entries followed by the trailing
`buffer[pos..].fill(0)` up to `size()`. -/
def metaCpioBytes (metadata : List Nat) : List Nat :=
  let e :=
    entryBytes
      (metadataHeader metadata.length (META_FILE_NAME.length + 1))
      META_FILE_NAME metadata ++
    entryBytes trailerHeader TRAILER_NAME []
  e ++ List.replicate (metaCpioSize metadata - e.length) 0

/-- Counterexample to C9 as stated: in the emitted archive (empty metadata
string, so the trailer header starts at offset 136), the trailer's `n_link`
field (offset 38 within the header) is the eight hex characters of 1, not
zero, and its `name_size` field (offset 94) is `0000000b`, not zero —
contradicting "all other fields zero". -/
theorem trailer_nlink_nonzero :
    ((metaCpioBytes []).drop 174).take 8 = strBytes "00000001" ∧
    ((metaCpioBytes []).drop 174).take 8 ≠ strBytes "00000000" ∧
    ((metaCpioBytes []).drop 230).take 8 = strBytes "0000000b" ∧
    ((metaCpioBytes []).drop 230).take 8 ≠ strBytes "00000000" := by
  refine ⟨by decide, by decide, by decide, by decide⟩

/-- Refinement target, written from the amended claim's words: the metadata
file entry — magic `"070701"`, ino `deadbeef`, mode `0100644` (hex
`000081a4`), `n_link` 1, `file_size` and `name_size` matching, name
`".uefi-lopatch-metadata"` followed by a NUL, name and data regions padded
to 4 bytes — followed by a trailer entry with name `"TRAILER!!!"` plus NUL,
zero size, `n_link` 1 and `name_size` `0xb`, all other fields zero. -/
def specMetaEntry (md : List Nat) : List Nat :=
  strBytes "070701" ++ strBytes "deadbeef" ++ strBytes "000081a4" ++
  strBytes "00000000" ++ strBytes "00000000" ++ strBytes "00000001" ++
  strBytes "00000000" ++ writeHex md.length ++
  strBytes "00000000" ++ strBytes "00000000" ++ strBytes "00000000" ++
  strBytes "00000000" ++ strBytes "00000017" ++ strBytes "00000000" ++
  (strBytes ".uefi-lopatch-metadata" ++ [0] ++ List.replicate 3 0) ++
  (md ++ List.replicate ((4 - md.length % 4) % 4) 0)

def specTrailerEntry : List Nat :=
  strBytes "070701" ++ strBytes "00000000" ++ strBytes "00000000" ++
  strBytes "00000000" ++ strBytes "00000000" ++ strBytes "00000001" ++
  strBytes "00000000" ++ strBytes "00000000" ++ strBytes "00000000" ++
  strBytes "00000000" ++ strBytes "00000000" ++ strBytes "00000000" ++
  strBytes "0000000b" ++ strBytes "00000000" ++
  (strBytes "TRAILER!!!" ++ [0] ++ List.replicate 3 0)

/-- The whole archive per the amended claim: the two entries, zero-padded
to a multiple of 512 bytes. -/
def cpioSpecBytes (md : List Nat) : List Nat :=
  specMetaEntry md ++ specTrailerEntry ++
    List.replicate
      ((512 - (specMetaEntry md ++ specTrailerEntry).length % 512) % 512) 0

theorem length_writeHex (v : Nat) : (writeHex v).length = 8 := by
  simp [writeHex]

set_option maxRecDepth 8000 in
set_option maxHeartbeats 1600000 in
/-- C9 amended: for every metadata string, `MetaCpioChunk` emits exactly
the newc archive described by `cpioSpecBytes` — the metadata entry as the
claim states it, and a trailer whose `n_link` is 1 and whose `name_size`
is `0xb` (not zero), everything zero-padded to a multiple of 512 bytes,
with total length `MetaCpioChunk::size()`. -/
theorem meta_cpio_layout (md : List Nat) :
    metaCpioBytes md = cpioSpecBytes md ∧
    (metaCpioBytes md).length = metaCpioSize md ∧
    metaCpioSize md % 512 = 0 := by
  have hf1 : writeHex 0xdeadbeef = strBytes "deadbeef" := by decide
  have hf2 : writeHex 0o100644 = strBytes "000081a4" := by decide
  have hf3 : writeHex 1 = strBytes "00000001" := by decide
  have hf4 : zeros8 = strBytes "00000000" := by decide
  have hf5 : writeHex (META_FILE_NAME.length + 1) = strBytes "00000017" := by
    decide
  have hf6 : writeHex 0 = strBytes "00000000" := by decide
  have hf7 : writeHex 11 = strBytes "0000000b" := by decide
  have hn1 : META_FILE_NAME ++ List.replicate
      (fourPad (HEADER_SIZE + META_FILE_NAME.length + 1) - HEADER_SIZE -
        META_FILE_NAME.length) 0 =
      strBytes ".uefi-lopatch-metadata" ++ [0] ++ List.replicate 3 0 := by
    decide
  have hpad4 : fourPad md.length - md.length = (4 - md.length % 4) % 4 := by
    simp only [fourPad]; omega
  have hmeta : entryBytes
      (metadataHeader md.length (META_FILE_NAME.length + 1))
      META_FILE_NAME md = specMetaEntry md := by
    simp only [entryBytes, NewcHeader.bytes, metadataHeader, specMetaEntry,
      hf1, hf2, hf3, hf4, hf5, hn1, hpad4, List.append_assoc]
  have htrailer : entryBytes trailerHeader TRAILER_NAME [] =
      specTrailerEntry := by decide
  have hge4 : md.length ≤ fourPad md.length := by
    simp only [fourPad]; omega
  have hmetaLen : (specMetaEntry md).length = 136 + fourPad md.length := by
    have hl1 : (strBytes "070701").length = 6 := by decide
    have hl2 : (strBytes "deadbeef").length = 8 := by decide
    have hl3 : (strBytes "000081a4").length = 8 := by decide
    have hl4 : (strBytes "00000000").length = 8 := by decide
    have hl5 : (strBytes "00000001").length = 8 := by decide
    have hl6 : (strBytes "00000017").length = 8 := by decide
    have hl7 : (strBytes ".uefi-lopatch-metadata").length = 22 := by decide
    simp only [specMetaEntry, List.length_append, List.length_replicate,
      List.length_cons, List.length_nil, length_writeHex, hl1, hl2, hl3,
      hl4, hl5, hl6, hl7]
    simp only [fourPad] at hpad4 ⊢
    omega
  have htrailerLen : specTrailerEntry.length = 124 := by decide
  have hsize : metaCpioSize md =
      (260 + fourPad md.length + 511) / 512 * 512 := by
    simp only [metaCpioSize, calcCpioEntrySize, BlockIo.SECTOR_SIZE]
    rw [show fourPad (HEADER_SIZE + (META_FILE_NAME.length + 1)) = 136
        from by decide,
      show fourPad (HEADER_SIZE + (TRAILER_NAME.length + 1)) = 124
        from by decide,
      show fourPad 0 = 0 from by decide]
    omega
  have hbodyLen : (specMetaEntry md ++ specTrailerEntry).length =
      260 + fourPad md.length := by
    simp [List.length_append, hmetaLen, htrailerLen]
    omega
  have hunfold : metaCpioBytes md =
      (entryBytes (metadataHeader md.length (META_FILE_NAME.length + 1))
          META_FILE_NAME md ++ entryBytes trailerHeader TRAILER_NAME []) ++
        List.replicate (metaCpioSize md -
          (entryBytes (metadataHeader md.length (META_FILE_NAME.length + 1))
              META_FILE_NAME md ++
            entryBytes trailerHeader TRAILER_NAME []).length) 0 := rfl
  have hcount : metaCpioSize md -
      (specMetaEntry md ++ specTrailerEntry).length =
      (512 - (specMetaEntry md ++ specTrailerEntry).length % 512) % 512 := by
    rw [hbodyLen, hsize]
    generalize fourPad md.length = k
    omega
  refine ⟨?_, ?_, ?_⟩
  · rw [hunfold, hmeta, htrailer, hcount, cpioSpecBytes, List.append_assoc]
  · rw [hunfold, hmeta, htrailer]
    simp only [List.length_append, List.length_replicate]
    rw [hsize]
    rw [show (specMetaEntry md).length = 136 + fourPad md.length
        from hmetaLen,
      show specTrailerEntry.length = 124 from htrailerLen]
    generalize fourPad md.length = k
    omega
  · rw [hsize]
    generalize fourPad md.length = k
    omega

end Cpio

namespace MultiProto

/-- A protocol entry on a handle: (GUID, interface pointer), both
abstracted to `Nat`. -/
structure ProtoPair where
  guid : Nat
  iface : Nat
  deriving DecidableEq

/-- Whether a protocol with this GUID is installed on the handle. -/
def hasGuid (hs : List ProtoPair) (g : Nat) : Bool :=
  hs.any (fun q => q.guid = g)

/-- Firmware `install_protocol_interface` restricted to one handle, per the
UEFI contract: fails (`INVALID_PARAMETER`) iff a protocol with the same
GUID is already installed on the handle; otherwise records the pair. -/
def installPI (hs : List ProtoPair) (p : ProtoPair) :
    Except Unit (List ProtoPair) :=
  if hasGuid hs p.guid then .error () else .ok (hs ++ [p])

/-- Firmware `uninstall_protocol_interface`: fails (`NOT_FOUND`) iff the
(GUID, interface) pair is not present; otherwise removes one occurrence. -/
def uninstallPI (hs : List ProtoPair) (p : ProtoPair) :
    Except Unit (List ProtoPair) :=
  if p ∈ hs then .ok (hs.erase p) else .error ()

mutual

/-- `install_multiple_protocols` (`driver/mod.rs` lines 112-136): split off
the last pair, install the earlier ones recursively, then install the last;
on failure, roll back by uninstalling the already-installed prefix and
report the failing pair.  The rollback's `.unwrap()` panic is `none`.
(The `Option Handle` threading is projected onto the single target handle's
interface list; uninstalling an empty prefix is a no-op either way.) -/
def installMP (hs : List ProtoPair) (pairs : List ProtoPair) :
    Option (Except ProtoPair Unit × List ProtoPair) :=
  if hpe : pairs = [] then some (.ok (), hs)
  else
    let curr := pairs.getLast hpe
    match installMP hs pairs.dropLast with
    | none => none
    | some (.error e, hs1) => some (.error e, hs1)
    | some (.ok _, hs1) =>
      match installPI hs1 curr with
      | .ok hs2 => some (.ok (), hs2)
      | .error _ =>
        match uninstallMP hs1 pairs.dropLast with
        | some (.ok _, hs2) => some (.error curr, hs2)
        | _ => none
termination_by pairs.length
decreasing_by
  all_goals try simp only [List.length_dropLast, List.length_cons]
  all_goals (have hlp := List.length_pos.mpr hpe; omega)

/-- `uninstall_multiple_protocols` (`driver/mod.rs` lines 138-157): split
off the first pair, uninstall the rest recursively, then uninstall the
first; on failure, reinstall the already-removed pairs and report the
failing pair (rollback `.unwrap()` panic is `none`). -/
def uninstallMP (hs : List ProtoPair) (pairs : List ProtoPair) :
    Option (Except ProtoPair Unit × List ProtoPair) :=
  match pairs with
  | [] => some (.ok (), hs)
  | curr :: rest =>
    match uninstallMP hs rest with
    | none => none
    | some (.error e, hs1) => some (.error e, hs1)
    | some (.ok _, hs1) =>
      match uninstallPI hs1 curr with
      | .ok hs2 => some (.ok (), hs2)
      | .error _ =>
        match installMP hs1 rest with
        | some (.ok _, hs2) => some (.error curr, hs2)
        | _ => none
termination_by pairs.length
decreasing_by
  all_goals try simp only [List.length_dropLast, List.length_cons]
  all_goals omega

end

theorem installMP_concat (hs : List ProtoPair) (l : List ProtoPair)
    (a : ProtoPair) :
    installMP hs (l ++ [a]) =
      match installMP hs l with
      | none => none
      | some (.error e, hs1) => some (.error e, hs1)
      | some (.ok _, hs1) =>
        match installPI hs1 a with
        | .ok hs2 => some (.ok (), hs2)
        | .error _ =>
          match uninstallMP hs1 l with
          | some (.ok _, hs2) => some (.error a, hs2)
          | _ => none := by
  rw [installMP.eq_def]
  rw [dif_neg (by simp)]
  simp only [List.dropLast_concat, List.getLast_concat]

/-- Evaluation of `installMP` on the empty pair list. -/
theorem installMP_nil (hs : List ProtoPair) :
    installMP hs [] = some (.ok (), hs) := by
  rw [installMP.eq_def]
  rfl

theorem uninstallMP_nil (hs : List ProtoPair) :
    uninstallMP hs [] = some (.ok (), hs) := by
  rw [uninstallMP.eq_def]

theorem installMP_concat_none (hs l : List ProtoPair) (a : ProtoPair)
    (h1 : installMP hs l = none) : installMP hs (l ++ [a]) = none := by
  rw [installMP_concat, h1]

theorem installMP_concat_err (hs l : List ProtoPair) (a : ProtoPair)
    (e : ProtoPair) (hs1 : List ProtoPair)
    (h1 : installMP hs l = some (.error e, hs1)) :
    installMP hs (l ++ [a]) = some (.error e, hs1) := by
  rw [installMP_concat, h1]

theorem installMP_concat_ok_ok (hs l : List ProtoPair) (a : ProtoPair)
    (u : Unit) (hs1 hs2 : List ProtoPair)
    (h1 : installMP hs l = some (.ok u, hs1))
    (h2 : installPI hs1 a = .ok hs2) :
    installMP hs (l ++ [a]) = some (.ok (), hs2) := by
  rw [installMP_concat, h1]
  show (match installPI hs1 a with
    | .ok hs2 => some (.ok (), hs2)
    | .error _ =>
      match uninstallMP hs1 l with
      | some (.ok _, hs2) => some (.error a, hs2)
      | _ => none : Option (Except ProtoPair Unit × List ProtoPair)) = _
  rw [h2]

theorem installMP_concat_rollback (hs l : List ProtoPair) (a : ProtoPair)
    (u u2 : Unit) (hs1 hs2 : List ProtoPair)
    (h1 : installMP hs l = some (.ok u, hs1))
    (h2 : installPI hs1 a = .error ())
    (h3 : uninstallMP hs1 l = some (.ok u2, hs2)) :
    installMP hs (l ++ [a]) = some (.error a, hs2) := by
  rw [installMP_concat, h1]
  show (match installPI hs1 a with
    | .ok hs2 => some (.ok (), hs2)
    | .error _ =>
      match uninstallMP hs1 l with
      | some (.ok _, hs2) => some (.error a, hs2)
      | _ => none : Option (Except ProtoPair Unit × List ProtoPair)) = _
  rw [h2]
  show (match uninstallMP hs1 l with
    | some (.ok _, hs2) => some (.error a, hs2)
    | _ => none : Option (Except ProtoPair Unit × List ProtoPair)) = _
  rw [h3]

theorem installMP_concat_fatal (hs l : List ProtoPair) (a : ProtoPair)
    (u : Unit) (hs1 : List ProtoPair)
    (h1 : installMP hs l = some (.ok u, hs1))
    (h2 : installPI hs1 a = .error ())
    (h3 : ∀ u2 hs2, uninstallMP hs1 l ≠ some (.ok u2, hs2)) :
    installMP hs (l ++ [a]) = none := by
  rw [installMP_concat, h1]
  show (match installPI hs1 a with
    | .ok hs2 => some (.ok (), hs2)
    | .error _ =>
      match uninstallMP hs1 l with
      | some (.ok _, hs2) => some (.error a, hs2)
      | _ => none : Option (Except ProtoPair Unit × List ProtoPair)) = _
  rw [h2]
  show (match uninstallMP hs1 l with
    | some (.ok _, hs2) => some (.error a, hs2)
    | _ => none : Option (Except ProtoPair Unit × List ProtoPair)) = _
  match h4 : uninstallMP hs1 l with
  | none => rfl
  | some (.error e, hs2) => rfl
  | some (.ok u2, hs2) => exact absurd h4 (h3 u2 hs2)

theorem uninstallMP_cons_step (hs : List ProtoPair) (curr : ProtoPair)
    (rest : List ProtoPair) :
    uninstallMP hs (curr :: rest) =
      (match uninstallMP hs rest with
      | none => none
      | some (.error e, hs1) => some (.error e, hs1)
      | some (.ok _, hs1) =>
        match uninstallPI hs1 curr with
        | .ok hs2 => some (.ok (), hs2)
        | .error _ =>
          match installMP hs1 rest with
          | some (.ok _, hs2) => some (.error curr, hs2)
          | _ => none) := by
  rw [uninstallMP.eq_def]

theorem uninstallMP_cons_none (hs : List ProtoPair) (curr : ProtoPair)
    (rest : List ProtoPair) (h1 : uninstallMP hs rest = none) :
    uninstallMP hs (curr :: rest) = none := by
  rw [uninstallMP_cons_step, h1]

theorem uninstallMP_cons_err (hs : List ProtoPair) (curr : ProtoPair)
    (rest : List ProtoPair) (e : ProtoPair) (hs1 : List ProtoPair)
    (h1 : uninstallMP hs rest = some (.error e, hs1)) :
    uninstallMP hs (curr :: rest) = some (.error e, hs1) := by
  rw [uninstallMP_cons_step, h1]

theorem uninstallMP_cons_ok_ok (hs : List ProtoPair) (curr : ProtoPair)
    (rest : List ProtoPair) (u : Unit) (hs1 hs2 : List ProtoPair)
    (h1 : uninstallMP hs rest = some (.ok u, hs1))
    (h2 : uninstallPI hs1 curr = .ok hs2) :
    uninstallMP hs (curr :: rest) = some (.ok (), hs2) := by
  rw [uninstallMP_cons_step, h1]
  show (match uninstallPI hs1 curr with
    | .ok hs2 => some (.ok (), hs2)
    | .error _ =>
      match installMP hs1 rest with
      | some (.ok _, hs2) => some (.error curr, hs2)
      | _ => none : Option (Except ProtoPair Unit × List ProtoPair)) = _
  rw [h2]

theorem uninstallMP_cons_rollback (hs : List ProtoPair) (curr : ProtoPair)
    (rest : List ProtoPair) (u u2 : Unit) (hs1 hs2 : List ProtoPair)
    (h1 : uninstallMP hs rest = some (.ok u, hs1))
    (h2 : uninstallPI hs1 curr = .error ())
    (h3 : installMP hs1 rest = some (.ok u2, hs2)) :
    uninstallMP hs (curr :: rest) = some (.error curr, hs2) := by
  rw [uninstallMP_cons_step, h1]
  show (match uninstallPI hs1 curr with
    | .ok hs2 => some (.ok (), hs2)
    | .error _ =>
      match installMP hs1 rest with
      | some (.ok _, hs2) => some (.error curr, hs2)
      | _ => none : Option (Except ProtoPair Unit × List ProtoPair)) = _
  rw [h2]
  show (match installMP hs1 rest with
    | some (.ok _, hs2) => some (.error curr, hs2)
    | _ => none : Option (Except ProtoPair Unit × List ProtoPair)) = _
  rw [h3]

theorem uninstallMP_cons_fatal (hs : List ProtoPair) (curr : ProtoPair)
    (rest : List ProtoPair) (u : Unit) (hs1 : List ProtoPair)
    (h1 : uninstallMP hs rest = some (.ok u, hs1))
    (h2 : uninstallPI hs1 curr = .error ())
    (h3 : ∀ u2 hs2, installMP hs1 rest ≠ some (.ok u2, hs2)) :
    uninstallMP hs (curr :: rest) = none := by
  rw [uninstallMP_cons_step, h1]
  show (match uninstallPI hs1 curr with
    | .ok hs2 => some (.ok (), hs2)
    | .error _ =>
      match installMP hs1 rest with
      | some (.ok _, hs2) => some (.error curr, hs2)
      | _ => none : Option (Except ProtoPair Unit × List ProtoPair)) = _
  rw [h2]
  show (match installMP hs1 rest with
    | some (.ok _, hs2) => some (.error curr, hs2)
    | _ => none : Option (Except ProtoPair Unit × List ProtoPair)) = _
  match h4 : installMP hs1 rest with
  | none => rfl
  | some (.error e, hs2) => rfl
  | some (.ok u2, hs2) => exact absurd h4 (h3 u2 hs2)

/-- A successful multi-install appends the pairs, in order. -/
theorem installMP_ok (pairs : List ProtoPair) : ∀ hs u hs',
    installMP hs pairs = some (.ok u, hs') → hs' = hs ++ pairs := by
  induction pairs using List.reverseRecOn with
  | nil =>
    intro hs u hs' h
    rw [installMP_nil] at h
    simp only [Option.some.injEq, Prod.mk.injEq] at h
    simp [h.2]
  | append_singleton l a ih =>
    intro hs u hs' h
    match h1 : installMP hs l with
    | none =>
      rw [installMP_concat_none hs l a h1] at h
      cases h
    | some (.error e, hs1) =>
      rw [installMP_concat_err hs l a e hs1 h1] at h
      simp at h
    | some (.ok u1, hs1) =>
      have hhs1 : hs1 = hs ++ l := ih hs u1 hs1 h1
      match h2 : installPI hs1 a with
      | .ok hs2 =>
        rw [installMP_concat_ok_ok hs l a u1 hs1 hs2 h1 h2] at h
        simp only [Option.some.injEq, Prod.mk.injEq] at h
        have hv : hs2 = hs1 ++ [a] := by
          simp only [installPI] at h2
          by_cases hg : hasGuid hs1 a.guid = true
          · rw [if_pos hg] at h2; cases h2
          · rw [if_neg hg] at h2
            simpa using h2.symm
        rw [← h.2, hv, hhs1, List.append_assoc]
      | .error e =>
        match h3 : uninstallMP hs1 l with
        | none =>
          rw [installMP_concat_fatal hs l a u1 hs1 h1 h2
            (by intro u2 hs2 hq; rw [h3] at hq; cases hq)] at h
          cases h
        | some (.error e2, hs2) =>
          rw [installMP_concat_fatal hs l a u1 hs1 h1 h2
            (by intro u2 hs2 hq; rw [h3] at hq; cases hq)] at h
          cases h
        | some (.ok u2, hs2) =>
          rw [installMP_concat_rollback hs l a u1 u2 hs1 hs2 h1 h2 h3] at h
          simp at h

/-- A successful multi-uninstall removes exactly one copy of each pair:
the resulting interface list plus the pairs is a permutation of the
original. -/
theorem uninstallMP_ok (pairs : List ProtoPair) : ∀ hs u hs',
    uninstallMP hs pairs = some (.ok u, hs') →
    List.Perm (hs' ++ pairs) hs := by
  induction pairs with
  | nil =>
    intro hs u hs' h
    rw [uninstallMP_nil] at h
    simp only [Option.some.injEq, Prod.mk.injEq] at h
    simp [h.2]
  | cons curr rest ih =>
    intro hs u hs' h
    match h1 : uninstallMP hs rest with
    | none =>
      rw [uninstallMP_cons_none hs curr rest h1] at h
      cases h
    | some (.error e, hs1) =>
      rw [uninstallMP_cons_err hs curr rest e hs1 h1] at h
      simp at h
    | some (.ok u1, hs1) =>
      have hperm1 : List.Perm (hs1 ++ rest) hs := ih hs u1 hs1 h1
      match h2 : uninstallPI hs1 curr with
      | .ok hs2 =>
        rw [uninstallMP_cons_ok_ok hs curr rest u1 hs1 hs2 h1 h2] at h
        simp only [Option.some.injEq, Prod.mk.injEq] at h
        simp only [uninstallPI] at h2
        by_cases hm : curr ∈ hs1
        · rw [if_pos hm] at h2
          have hhs2 : hs2 = hs1.erase curr := by simpa using h2.symm
          rw [← h.2, hhs2]
          refine List.Perm.trans List.perm_middle ?_
          refine List.Perm.trans ?_ hperm1
          have hpp := ((List.perm_cons_erase hm).symm).append_right rest
          simpa using hpp
        · rw [if_neg hm] at h2; cases h2
      | .error e =>
        match h3 : installMP hs1 rest with
        | none =>
          rw [uninstallMP_cons_fatal hs curr rest u1 hs1 h1 h2
            (by intro u2 hs2 hq; rw [h3] at hq; cases hq)] at h
          cases h
        | some (.error e2, hs2) =>
          rw [uninstallMP_cons_fatal hs curr rest u1 hs1 h1 h2
            (by intro u2 hs2 hq; rw [h3] at hq; cases hq)] at h
          cases h
        | some (.ok u2, hs2) =>
          rw [uninstallMP_cons_rollback hs curr rest u1 u2 hs1 hs2 h1 h2
            h3] at h
          simp at h

/-- Rollback success: uninstalling pairs that are (as a multiset) present
succeeds and removes exactly them. -/
theorem uninstallMP_rollback_ok (pairs : List ProtoPair) : ∀ hs,
    List.Subperm pairs hs →
    ∃ hs', uninstallMP hs pairs = some (.ok (), hs') ∧
      List.Perm (hs' ++ pairs) hs := by
  induction pairs with
  | nil =>
    intro hs _
    exact ⟨hs, uninstallMP_nil hs, by simp⟩
  | cons curr rest ih =>
    intro hs hsp
    have hsub : List.Subperm rest hs := by
      rw [List.subperm_ext_iff] at hsp ⊢
      intro x hx
      have h1 := hsp x (List.mem_cons_of_mem _ hx)
      have h2 : List.count x rest ≤ List.count x (curr :: rest) := by
        rw [List.count_cons]
        omega
      omega
    obtain ⟨hs1, h1, hperm1⟩ := ih hs hsub
    have hmem : curr ∈ hs1 := by
      have hc1 : List.count curr (curr :: rest) ≤ List.count curr hs := by
        rw [List.subperm_ext_iff] at hsp
        exact hsp curr (by simp)
      have hc2 : List.count curr (hs1 ++ rest) = List.count curr hs :=
        hperm1.count_eq curr
      rw [List.count_append] at hc2
      rw [List.count_cons_self] at hc1
      exact List.count_pos_iff.mp (by omega)
    refine ⟨hs1.erase curr,
      uninstallMP_cons_ok_ok hs curr rest () hs1 _ h1
        (by simp [uninstallPI, hmem]), ?_⟩
    refine List.Perm.trans List.perm_middle ?_
    refine List.Perm.trans ?_ hperm1
    have hpp := ((List.perm_cons_erase hmem).symm).append_right rest
    simpa using hpp

/-- A failed multi-install leaves the handle's interface list a permutation
of (in fact, after a clean rollback, equal as a multiset to) what it was. -/
theorem installMP_error (pairs : List ProtoPair) : ∀ hs p hs',
    installMP hs pairs = some (.error p, hs') → List.Perm hs' hs := by
  induction pairs using List.reverseRecOn with
  | nil =>
    intro hs p hs' h
    rw [installMP_nil] at h
    simp at h
  | append_singleton l a ih =>
    intro hs p hs' h
    match h1 : installMP hs l with
    | none =>
      rw [installMP_concat_none hs l a h1] at h
      cases h
    | some (.error e, hs1) =>
      rw [installMP_concat_err hs l a e hs1 h1] at h
      simp only [Option.some.injEq, Prod.mk.injEq, Except.error.injEq] at h
      exact h.2 ▸ ih hs e hs1 h1
    | some (.ok u1, hs1) =>
      have hhs1 : hs1 = hs ++ l := installMP_ok l hs u1 hs1 h1
      match h2 : installPI hs1 a with
      | .ok hs2 =>
        rw [installMP_concat_ok_ok hs l a u1 hs1 hs2 h1 h2] at h
        simp at h
      | .error e =>
        have h2' : installPI hs1 a = .error () := by
          cases e
          exact h2
        have hsubl : List.Subperm l hs1 := by
          rw [hhs1]
          exact (List.sublist_append_right hs l).subperm
        obtain ⟨hs2, hroll, hperm⟩ := uninstallMP_rollback_ok l hs1 hsubl
        rw [installMP_concat_rollback hs l a u1 () hs1 hs2 h1 h2' hroll] at h
        simp only [Option.some.injEq, Prod.mk.injEq, Except.error.injEq] at h
        have hp2 : List.Perm (hs2 ++ l) (hs ++ l) := by
          rw [← hhs1]
          exact hperm
        have hfin : List.Perm hs2 hs := (List.perm_append_right_iff l).mp hp2
        exact h.2 ▸ hfin

/-- A failed multi-uninstall restores the handle's interface list to a
permutation of what it began with. -/
theorem uninstallMP_error (pairs : List ProtoPair) : ∀ hs p hs',
    uninstallMP hs pairs = some (.error p, hs') → List.Perm hs' hs := by
  induction pairs with
  | nil =>
    intro hs p hs' h
    rw [uninstallMP_nil] at h
    simp at h
  | cons curr rest ih =>
    intro hs p hs' h
    match h1 : uninstallMP hs rest with
    | none =>
      rw [uninstallMP_cons_none hs curr rest h1] at h
      cases h
    | some (.error e, hs1) =>
      rw [uninstallMP_cons_err hs curr rest e hs1 h1] at h
      simp only [Option.some.injEq, Prod.mk.injEq, Except.error.injEq] at h
      exact h.2 ▸ ih hs e hs1 h1
    | some (.ok u1, hs1) =>
      have hperm1 := uninstallMP_ok rest hs u1 hs1 h1
      match h2 : uninstallPI hs1 curr with
      | .ok hs2 =>
        rw [uninstallMP_cons_ok_ok hs curr rest u1 hs1 hs2 h1 h2] at h
        simp at h
      | .error e =>
        have h2' : uninstallPI hs1 curr = .error () := by
          cases e
          exact h2
        match h3 : installMP hs1 rest with
        | none =>
          rw [uninstallMP_cons_fatal hs curr rest u1 hs1 h1 h2'
            (fun u2 hs2 hq => by rw [h3] at hq; cases hq)] at h
          cases h
        | some (.error e2, hs2) =>
          rw [uninstallMP_cons_fatal hs curr rest u1 hs1 h1 h2'
            (fun u2 hs2 hq => by rw [h3] at hq; cases hq)] at h
          cases h
        | some (.ok u2, hs2) =>
          rw [uninstallMP_cons_rollback hs curr rest u1 u2 hs1 hs2 h1 h2'
            h3] at h
          simp only [Option.some.injEq, Prod.mk.injEq,
            Except.error.injEq] at h
          have hhs2 : hs2 = hs1 ++ rest := installMP_ok rest hs1 u2 hs2 h3
          have hp : List.Perm hs2 hs := by
            rw [hhs2]
            exact hperm1
          exact h.2 ▸ hp

/-- A permutation of the interface list carries the same installed GUIDs. -/
theorem hasGuid_perm {l₁ l₂ : List ProtoPair}
    (h : List.Perm l₁ l₂) (g : Nat) : hasGuid l₁ g = hasGuid l₂ g := by
  simp only [hasGuid]
  cases hb : l₂.any (fun q => q.guid = g) with
  | true =>
    simp only [List.any_eq_true] at hb ⊢
    obtain ⟨x, hx, hxp⟩ := hb
    exact ⟨x, h.mem_iff.mpr hx, hxp⟩
  | false =>
    simp only [List.any_eq_false] at hb ⊢
    intro x hx
    exact hb x (h.mem_iff.mp hx)

/-- C4.  Multi-protocol install/uninstall atomicity: if
`install_multiple_protocols` fails on any pair, the target handle ends with
the interface set it began with (so if none of the attempted GUIDs was
present before — the fresh-handle situation of child creation — none of the
attempted interfaces is installed after the failure); if
`uninstall_multiple_protocols` fails on any pair, the handle ends with
exactly the interface set it began with.  (A rollback failure is a fatal
`unwrap` panic, after which no state is reported.) -/
theorem install_uninstall_atomic :
    (∀ (hs pairs : List ProtoPair) (p : ProtoPair)
      (final : List ProtoPair),
      installMP hs pairs = some (.error p, final) →
      List.Perm final hs ∧
      ((∀ q ∈ pairs, hasGuid hs q.guid = false) →
        ∀ q ∈ pairs, hasGuid final q.guid = false)) ∧
    (∀ (hs pairs : List ProtoPair) (p : ProtoPair)
      (final : List ProtoPair),
      uninstallMP hs pairs = some (.error p, final) →
      List.Perm final hs) := by
  constructor
  · intro hs pairs p final h
    have hperm := installMP_error pairs hs p final h
    refine ⟨hperm, ?_⟩
    intro hnone q hq
    rw [hasGuid_perm hperm q.guid]
    exact hnone q hq
  · intro hs pairs p final h
    exact uninstallMP_error pairs hs p final h

theorem installMP_dup_guid_eval :
    installMP [] [⟨5, 1⟩, ⟨5, 2⟩] = some (.error ⟨5, 2⟩, []) := by
  have hstep1 : installMP [] [⟨5, 1⟩] = some (.ok (), [⟨5, 1⟩]) := by
    have := installMP_concat_ok_ok [] [] ⟨5, 1⟩ () [] [⟨5, 1⟩]
      (installMP_nil []) (by rfl)
    simpa using this
  have hroll : uninstallMP [⟨5, 1⟩] [⟨5, 1⟩] = some (.ok (), []) := by
    have := uninstallMP_cons_ok_ok [⟨5, 1⟩] ⟨5, 1⟩ [] () [⟨5, 1⟩] []
      (uninstallMP_nil _) (by simp [uninstallPI])
    simpa using this
  have := installMP_concat_rollback [] [⟨5, 1⟩] ⟨5, 2⟩ () () [⟨5, 1⟩] []
    hstep1 (by rfl) hroll
  simpa using this

theorem uninstallMP_missing_eval :
    uninstallMP [⟨3, 9⟩] [⟨4, 4⟩] = some (.error ⟨4, 4⟩, [⟨3, 9⟩]) := by
  have := uninstallMP_cons_rollback [⟨3, 9⟩] ⟨4, 4⟩ [] () () [⟨3, 9⟩]
    [⟨3, 9⟩] (uninstallMP_nil _) (by simp [uninstallPI]) (installMP_nil _)
  simpa using this

/-- Witness for C4: a duplicate-GUID install onto a fresh handle fails and
leaves no attempted interface installed; uninstalling a pair that is not
present fails and leaves the handle's set unchanged. -/
theorem install_uninstall_atomic_witness :
    (List.Perm ([] : List ProtoPair) [] ∧
      ((∀ q ∈ [(⟨5, 1⟩ : ProtoPair), ⟨5, 2⟩],
          hasGuid ([] : List ProtoPair) q.guid = false) →
        ∀ q ∈ [(⟨5, 1⟩ : ProtoPair), ⟨5, 2⟩],
          hasGuid ([] : List ProtoPair) q.guid = false)) ∧
    List.Perm [(⟨3, 9⟩ : ProtoPair)] [⟨3, 9⟩] :=
  ⟨install_uninstall_atomic.1 [] [⟨5, 1⟩, ⟨5, 2⟩] ⟨5, 2⟩ []
      installMP_dup_guid_eval,
    install_uninstall_atomic.2 [⟨3, 9⟩] [⟨4, 4⟩] ⟨4, 4⟩ [⟨3, 9⟩]
      uninstallMP_missing_eval⟩

end MultiProto

end UefiToys
